import Mathlib

/-!
Verification of s5cmd: conflict policy, error classifier and worker pool

A shallow embedding of `command/copyutil.go`, `core/error.go` and
`parallel/parallel.go`.

Conventions of the embedding

* A Go `error` interface value is `Option GoError`; `none` is `nil`.
* A Go pointer that may be `nil` is an `Option`; dereferencing `none` is the
  outcome `GoResult.panic`.
* A Go pair `(obj, err)` is a Lean pair: both components are kept, since Go
  does not force one of them to be `nil`.
* The storage collaborator (`storage.NewClient`, `Client.Stat`) is a record of
  state-passing functions over an arbitrary world type.
* Go `int` is a two's complement integer of `w` bits: every arithmetic result
  is passed through `wrapInt w`.
* Go strings are modelled by Lean strings (sequences of Unicode code points).
* Goroutines are program counters over the statements of `Run`, `Wait` and
  `Close`; an interleaving is a schedule, the list of the goroutines that step.
  A blocked goroutine has no step; a run-time panic stops the program.
-/

namespace S5cmd

/-! ## Go runtime vocabulary -/

/-- Outcome of running a Go function body: a returned value, or a run-time
panic (nil dereference). -/
inductive GoResult (α : Type) where
  | ok (a : α)
  | panic
  deriving DecidableEq, Repr

/-- Non-nil values of the Go interface type `error`, by dynamic type.
`errorString addr msg` is a `*errors.errorString` (what `errors.New` and a
verb-free `fmt.Errorf` return); it is compared by pointer, `addr` being the
allocation. `acceptableErrorType inner` is the struct
`core.AcceptableErrorType` with its embedded error. `foreign` is a value of
any other dynamic type; `acceptable` is `some b` when that type has a method
`Acceptable() bool` returning `b` on this value. -/
inductive GoError where
  | errorString (addr : Nat) (msg : String)
  | acceptableErrorType (inner : GoError)
  | foreign (typ : Nat) (addr : Nat) (msg : String) (acceptable : Option Bool)
  deriving DecidableEq, Repr

/-- The method `Error() string` of an error value. The struct
`AcceptableErrorType` promotes the method of its embedded error. -/
def GoError.Error : GoError → String
  | .errorString _ msg => msg
  | .acceptableErrorType inner => inner.Error
  | .foreign _ _ msg _ => msg

/-- Standard library `errors.New`: a fresh `*errors.errorString`; `addr` is the
address of the allocation. -/
def errorsNew (addr : Nat) (s : String) : GoError := .errorString addr s

/-- Standard library `time.Time`, as an instant on the integer time line. -/
abbrev Time := Int

/-- Standard library `Time.After`: `t.After(u)` reports whether `t` is
strictly later than `u`. -/
def Time.After (t u : Time) : Bool := decide (u < t)

/-- Locator `*objurl.ObjectURL`; only its identity matters here. -/
abbrev ObjectURL := String

/-- Modelled from the spec: `storage.Object`, whose declaration is outside the
given sources. The fields are the ones `checkConditions` reads: `Size` is an
`int64`, `ModTime` a `*time.Time` (it is dereferenced with `*dstMod`). -/
structure Object where
  URL : ObjectURL
  Size : Int
  ModTime : Option Time
  deriving DecidableEq, Repr

/-! ## command/copyutil.go -/

/-- The storage package as seen from `getObject`: the sentinel
`storage.ErrGivenObjectNotFound`, the constructor `storage.NewClient` and the
method `Client.Stat`, each threading the world `σ`. `κ` is the client type. -/
structure Storage (σ κ : Type) where
  ErrGivenObjectNotFound : GoError
  NewClient : ObjectURL → σ → (κ × Option GoError) × σ
  Stat : κ → ObjectURL → σ → (Option Object × Option GoError) × σ

/-- The world together with the record of `getObject` invocations made so
far (most recent first). -/
structure Run (σ : Type) where
  world : σ
  lookups : List ObjectURL

/-- Package variable `ErrObjectExists = fmt.Errorf("object already exists")`. -/
def ErrObjectExists : GoError := .errorString 1 "object already exists"

/-- Package variable `ErrObjectIsNewer = fmt.Errorf("object is newer or same age")`. -/
def ErrObjectIsNewer : GoError := .errorString 2 "object is newer or same age"

/-- Package variable `ErrObjectSizesMatch = fmt.Errorf("object size matches")`. -/
def ErrObjectSizesMatch : GoError := .errorString 3 "object size matches"

/-- Function `getObject`: builds a client, stats the url, and turns the sentinel
`ErrGivenObjectNotFound` into `(nil, nil)`. -/
def getObject {σ κ : Type} (S : Storage σ κ) (url : ObjectURL) (r : Run σ) :
    (Option Object × Option GoError) × Run σ :=
  match S.NewClient url r.world with
  | ((_, some err), w1) => ((none, some err), ⟨w1, url :: r.lookups⟩)
  | ((client, none), w1) =>
    match S.Stat client url w1 with
    | ((obj, err), w2) =>
      if err = some S.ErrGivenObjectNotFound then
        ((none, none), ⟨w2, url :: r.lookups⟩)
      else
        ((obj, err), ⟨w2, url :: r.lookups⟩)

/-- The part of `checkConditions` after both lookups, for an existing
destination `dstObj`: the chain over `stickyErr`. `srcObj` is the possibly
nil source pointer. -/
def stickyChain (srcObj : Option Object) (dstObj : Object)
    (noClobber ifSizeDiffer ifSourceNewer : Bool) : GoResult (Option GoError) :=
  let stickyErr0 : Option GoError := if noClobber then some ErrObjectExists else none
  let afterSize : GoResult (Option GoError) :=
    if ifSizeDiffer then
      match srcObj with
      | none => .panic
      | some s => if s.Size = dstObj.Size then .ok (some ErrObjectSizesMatch) else .ok none
    else .ok stickyErr0
  match afterSize with
  | .panic => .panic
  | .ok stickyErr1 =>
    if ifSourceNewer then
      match srcObj with
      | none => .panic
      | some s =>
        match s.ModTime, dstObj.ModTime with
        | _, none => .panic
        | none, some _ => .panic
        | some srcMod, some dstMod =>
          if !(Time.After srcMod dstMod) then .ok (some ErrObjectIsNewer) else .ok none
    else .ok stickyErr1

/-- Function `checkConditions`. Returns the outcome and the run after the call. -/
def checkConditions {σ κ : Type} (S : Storage σ κ) (src dst : ObjectURL)
    (noClobber ifSizeDiffer ifSourceNewer : Bool) (r : Run σ) :
    GoResult (Option GoError) × Run σ :=
  if !noClobber && !ifSizeDiffer && !ifSourceNewer then
    (.ok none, r)
  else
    match getObject S src r with
    | ((_, some err), r1) => (.ok (some err), r1)
    | ((srcObj, none), r1) =>
      match getObject S dst r1 with
      | ((_, some err), r2) => (.ok (some err), r2)
      | ((none, none), r2) => (.ok none, r2)
      | ((some dstObj, none), r2) =>
        (stickyChain srcObj dstObj noClobber ifSizeDiffer ifSourceNewer, r2)

/-- Function `isWarning`: a `switch` comparing the interface value with the three
package-level errors. -/
def isWarning (err : Option GoError) : Bool :=
  if err = some ErrObjectExists ∨ err = some ErrObjectIsNewer ∨
      err = some ErrObjectSizesMatch then true
  else false

/-! ## core/error.go -/

/-- Function `NewAcceptableError`: the struct `AcceptableErrorType` around
`errors.New(s)`; `addr` is the allocation made by `errors.New`. -/
def NewAcceptableError (addr : Nat) (s : String) : GoError :=
  .acceptableErrorType (errorsNew addr s)

/-- Whether the dynamic type of an error value has a method
`Acceptable() bool`, that is, implements the interface `AcceptableError`. -/
def GoError.implementsAcceptable : GoError → Bool
  | .errorString _ _ => false
  | .acceptableErrorType _ => true
  | .foreign _ _ _ acceptable => acceptable.isSome

/-- The method `Acceptable()`; `none` when the dynamic type has no such
method. On `AcceptableErrorType` it is the constant `true`. -/
def GoError.Acceptable : GoError → Option Bool
  | .errorString _ _ => none
  | .acceptableErrorType _ => some true
  | .foreign _ _ _ acceptable => acceptable

/-- Function `IsAcceptableError`: the type assertion `err.(AcceptableError)`; `nil` when
it fails (also on a nil `err`), the same value otherwise. -/
def IsAcceptableError (err : Option GoError) : Option GoError :=
  match err with
  | none => none
  | some e => if e.implementsAcceptable then some e else none

/-- Standard library `strings.Replace(s, old, new, -1)` for a non-empty `old`,
on the characters of `s`: occurrences are found left to right without
overlap. The counter is the number of characters of the occurrence just
matched that are still to be skipped. -/
def replaceGo (old new : List Char) : Nat → List Char → List Char
  | _, [] => []
  | skip + 1, _ :: cs => replaceGo old new skip cs
  | 0, c :: cs =>
    if old.isPrefixOf (c :: cs) then new ++ replaceGo old new (old.length - 1) cs
    else c :: replaceGo old new 0 cs

/-- Standard library `strings.Replace(s, old, new, -1)`, `old` non-empty. -/
def stringsReplaceAll (s old new : String) : String :=
  ⟨replaceGo old.data new.data 0 s.data⟩

/-- Standard library `unicode.IsSpace`: the Unicode White_Space code points. -/
def unicodeIsSpace (c : Char) : Bool :=
  let n := c.toNat
  (9 ≤ n && n ≤ 13) || n = 0x20 || n = 0x85 || n = 0xA0 || n = 0x1680 ||
  (0x2000 ≤ n && n ≤ 0x200A) || n = 0x2028 || n = 0x2029 || n = 0x202F ||
  n = 0x205F || n = 0x3000

/-- Standard library `strings.TrimSpace`: drops leading and trailing white
space as defined by Unicode. -/
def stringsTrimSpace (s : String) : String :=
  ⟨((s.data.dropWhile unicodeIsSpace).reverse.dropWhile unicodeIsSpace).reverse⟩

/-- Function `CleanupError`. Calling `err.Error()` on a nil interface value panics. -/
def CleanupError (err : Option GoError) : GoResult String :=
  match err with
  | none => .panic
  | some e =>
    let s := stringsReplaceAll e.Error "\n" " "
    let s := stringsReplaceAll s "\t" " "
    let s := stringsReplaceAll s "  " " "
    let s := stringsTrimSpace s
    .ok s

/-! ## parallel/parallel.go -/

/-- Reduction of an integer to the two's complement range of `w` bits. -/
def wrapInt (w : Nat) (x : Int) : Int :=
  (x + 2 ^ (w - 1)) % 2 ^ w - 2 ^ (w - 1)

/-- Constant `minNumWorkers = 2`. -/
def minNumWorkers : Int := 2

/-- A buffered channel `chan bool`: capacity given to `make`, number of
buffered elements, and whether it has been closed. -/
structure Chan where
  cap : Int
  len : Nat
  closed : Bool
  deriving DecidableEq, Repr

/-- Struct `Manager`: the counter of its `sync.WaitGroup` and the semaphore
channel. -/
structure Manager where
  wg : Int
  semaphore : Chan
  deriving DecidableEq, Repr

/-- Built-in `make(chan bool, n)`: a run-time panic when the size `n` is
negative or above `limit`, the largest buffer the runtime can allocate; an
empty open channel of capacity `n` otherwise. -/
def makeChan (limit n : Int) : GoResult Chan :=
  if n < 0 ∨ limit < n then .panic else .ok { cap := n, len := 0, closed := false }

/-- Function `New`, on a platform whose `int` has `w` bits and whose runtime
allocates channel buffers up to `limit`; `numCPU` is the value of
`runtime.NumCPU()`. -/
def New (w : Nat) (limit numCPU : Int) (workercount : Int) : GoResult Manager :=
  let workercount :=
    if workercount < 0 then wrapInt w (numCPU * wrapInt w (-workercount))
    else workercount
  let workercount :=
    if workercount < minNumWorkers then minNumWorkers else workercount
  match makeChan limit workercount with
  | .panic => .panic
  | .ok semaphore => .ok { wg := 0, semaphore := semaphore }

/-- The outcome of `New` once the worker count has been resolved to `n`. -/
def managerOfCap (limit n : Int) : GoResult Manager :=
  match makeChan limit n with
  | .panic => .panic
  | .ok semaphore => .ok { wg := 0, semaphore := semaphore }

/-! ## parallel/parallel.go: goroutines of `Run`, `Wait` and `Close` -/

/-- Type `Task func() error`, by the error its body returns (`none` is a nil
error). Task bodies are opaque; they are taken to return. -/
abbrev Task := Option GoError

/-- Struct `Waiter`: the counter of its `sync.WaitGroup` and the error
channel. -/
structure Waiter where
  wg : Int
  errch : Chan
  deriving DecidableEq, Repr

/-- Function `NewWaiter`: `errch` is `make(chan error)`, an unbuffered
channel. -/
def NewWaiter : Waiter := { wg := 0, errch := { cap := 0, len := 0, closed := false } }

/-- The manager that `New` returns for a resolved worker count `W`. -/
def freshManager (W : Int) : Manager :=
  { wg := 0, semaphore := { cap := W, len := 0, closed := false } }

/-- A call made by a client goroutine: `p.Run(fn, waiter)`, `waiter.Wait()` or
`p.Close()`. -/
inductive Call where
  | Run (fn : Task)
  | Wait
  | Close
  deriving DecidableEq, Repr

/-- Program points of a client goroutine inside the call it is executing.
`entry` is the first statement of the call (`waiter.wg.Add(1)` in `Run`,
`wg.Wait()` in `Wait` and `Close`); `acquireSend` is `p.semaphore <- true`;
`acquireAdd` is `p.wg.Add(1)`; `spawn` is the `go` statement; `closeCh` is the
`close(...)` of `Wait` and `Close`. -/
inductive CallerPc where
  | entry
  | acquireSend
  | acquireAdd
  | spawn
  | closeCh
  deriving DecidableEq, Repr

/-- Program points of the goroutine started by `Run`: `call` is `fn()`;
`errSend err` is `waiter.errch <- err`; `release` is the `p.wg.Done()` of the
deferred `p.release()`; `semRecv` is its `<-p.semaphore`; `waiterDone` is the
deferred `waiter.wg.Done()`; `exited` is the end of the goroutine. -/
inductive WorkerPc where
  | call
  | errSend (err : GoError)
  | release
  | semRecv
  | waiterDone
  | exited
  deriving DecidableEq, Repr

/-- A goroutine: a client executing a sequence of calls, or the goroutine
that `Run` started for the task `fn`. -/
inductive Thread where
  | caller (pc : CallerPc) (calls : List Call)
  | worker (pc : WorkerPc) (fn : Task)
  deriving DecidableEq, Repr

/-- State of one manager and one waiter with their goroutines. `draining`
says that a consumer ranges over `waiter.Err()`; `received` is what it has
received so far, oldest first; `panicked` records a run-time panic. -/
structure Sys where
  p : Manager
  waiter : Waiter
  threads : List Thread
  draining : Bool
  received : List GoError
  panicked : Bool
  deriving DecidableEq, Repr

/-- One atomic statement of goroutine `i`. The result is `none` when the
goroutine is blocked, has ended, does not exist, or the program has
panicked. -/
def step (s : Sys) (i : Nat) : Option Sys :=
  if s.panicked then none else
  match s.threads[i]? with
  | none => none
  | some (.caller _ []) => none
  | some (.caller pc (.Run fn :: rest)) =>
    match pc with
    | .entry =>
      some { s with
        waiter := { s.waiter with wg := s.waiter.wg + 1 }
        threads := s.threads.set i (.caller .acquireSend (.Run fn :: rest)) }
    | .acquireSend =>
      if s.p.semaphore.closed then some { s with panicked := true }
      else if (s.p.semaphore.len : Int) < s.p.semaphore.cap then
        some { s with
          p := { s.p with semaphore := { s.p.semaphore with len := s.p.semaphore.len + 1 } }
          threads := s.threads.set i (.caller .acquireAdd (.Run fn :: rest)) }
      else none
    | .acquireAdd =>
      some { s with
        p := { s.p with wg := s.p.wg + 1 }
        threads := s.threads.set i (.caller .spawn (.Run fn :: rest)) }
    | .spawn =>
      some { s with threads := s.threads.set i (.caller .entry rest) ++ [.worker .call fn] }
    | .closeCh => none
  | some (.caller pc (.Wait :: rest)) =>
    match pc with
    | .entry =>
      if s.waiter.wg = 0 then
        some { s with threads := s.threads.set i (.caller .closeCh (.Wait :: rest)) }
      else none
    | .closeCh =>
      if s.waiter.errch.closed then some { s with panicked := true }
      else
        some { s with
          waiter := { s.waiter with errch := { s.waiter.errch with closed := true } }
          threads := s.threads.set i (.caller .entry rest) }
    | _ => none
  | some (.caller pc (.Close :: rest)) =>
    match pc with
    | .entry =>
      if s.p.wg = 0 then
        some { s with threads := s.threads.set i (.caller .closeCh (.Close :: rest)) }
      else none
    | .closeCh =>
      if s.p.semaphore.closed then some { s with panicked := true }
      else
        some { s with
          p := { s.p with semaphore := { s.p.semaphore with closed := true } }
          threads := s.threads.set i (.caller .entry rest) }
    | _ => none
  | some (.worker pc fn) =>
    match pc with
    | .call =>
      match fn with
      | none => some { s with threads := s.threads.set i (.worker .release fn) }
      | some err => some { s with threads := s.threads.set i (.worker (.errSend err) fn) }
    | .errSend err =>
      if s.waiter.errch.closed then some { s with panicked := true }
      else if s.draining then
        some { s with
          received := s.received ++ [err]
          threads := s.threads.set i (.worker .release fn) }
      else none
    | .release =>
      if s.p.wg ≤ 0 then some { s with panicked := true }
      else
        some { s with
          p := { s.p with wg := s.p.wg - 1 }
          threads := s.threads.set i (.worker .semRecv fn) }
    | .semRecv =>
      if 0 < s.p.semaphore.len then
        some { s with
          p := { s.p with semaphore := { s.p.semaphore with len := s.p.semaphore.len - 1 } }
          threads := s.threads.set i (.worker .waiterDone fn) }
      else if s.p.semaphore.closed then
        some { s with threads := s.threads.set i (.worker .waiterDone fn) }
      else none
    | .waiterDone =>
      if s.waiter.wg ≤ 0 then some { s with panicked := true }
      else
        some { s with
          waiter := { s.waiter with wg := s.waiter.wg - 1 }
          threads := s.threads.set i (.worker .exited fn) }
    | .exited => none

/-- An interleaving: the goroutines named by the schedule take one step each,
in order. The result is `none` when a scheduled goroutine cannot step. -/
def runSchedule (s : Sys) : List Nat → Option Sys
  | [] => some s
  | i :: rest =>
    match step s i with
    | none => none
    | some s1 => runSchedule s1 rest

/-- Initial state: manager `m`, a new waiter, and one client goroutine per
program, each at the entry of its first call. -/
def start (m : Manager) (progs : List (List Call)) (draining : Bool) : Sys :=
  { p := m, waiter := NewWaiter, threads := progs.map (Thread.caller .entry),
    draining := draining, received := [], panicked := false }

/-- The batch usage of a waiter: one client submits every task with `Run` and
then calls `Wait`; a consumer drains `Err()`. -/
def batch (W : Int) (tasks : List Task) : Sys :=
  start (freshManager W) [tasks.map Call.Run ++ [Call.Wait]] true

/-- Whether a goroutine holds a slot of the semaphore: it has sent on
`p.semaphore` and the matching receive has not happened. -/
def Thread.holdsSlot : Thread → Bool
  | .caller .acquireAdd (.Run _ :: _) => true
  | .caller .spawn (.Run _ :: _) => true
  | .worker .call _ => true
  | .worker (.errSend _) _ => true
  | .worker .release _ => true
  | .worker .semRecv _ => true
  | _ => false

/-- Whether a task has passed `acquire` and not finished `release`: `acquire`
has returned for it, or its goroutine has not completed `<-p.semaphore`. -/
def Thread.inFlight : Thread → Bool
  | .caller .spawn (.Run _ :: _) => true
  | .worker .call _ => true
  | .worker (.errSend _) _ => true
  | .worker .release _ => true
  | .worker .semRecv _ => true
  | _ => false

/-- Whether the goroutine is inside the task body `fn()`. -/
def Thread.inBody : Thread → Bool
  | .worker .call _ => true
  | _ => false

/-- Whether a goroutine is counted by the waiter's `WaitGroup`: `Add(1)` has
happened for its task and the matching `Done()` has not. -/
def Thread.tracked : Thread → Bool
  | .caller .acquireSend (.Run _ :: _) => true
  | .caller .acquireAdd (.Run _ :: _) => true
  | .caller .spawn (.Run _ :: _) => true
  | .worker .exited _ => false
  | .worker _ _ => true
  | _ => false

/-- Whether a goroutine is counted by the manager's `WaitGroup`. -/
def Thread.counted : Thread → Bool
  | .caller .spawn (.Run _ :: _) => true
  | .worker .call _ => true
  | .worker (.errSend _) _ => true
  | .worker .release _ => true
  | _ => false

/-- The error a worker goroutine has handed to the consumer, if any. -/
def Thread.delivered : Thread → Option GoError
  | .worker .release fn => fn
  | .worker .semRecv fn => fn
  | .worker .waiterDone fn => fn
  | .worker .exited fn => fn
  | _ => none

/-- The task of a worker goroutine. -/
def Thread.fn : Thread → Task
  | .worker _ fn => fn
  | .caller _ _ => none

/-- The counters agree with the goroutines: the semaphore holds one element
per slot holder and never more than its capacity, and each `WaitGroup`
counter is the number of goroutines it tracks. -/
def Balanced (s : Sys) : Prop :=
  (s.p.semaphore.len : Int) = s.threads.countP Thread.holdsSlot ∧
  (s.p.semaphore.len : Int) ≤ s.p.semaphore.cap ∧
  s.waiter.wg = s.threads.countP Thread.tracked ∧
  s.p.wg = s.threads.countP Thread.counted

/-- Invariant of the batch usage for the task list `tasks`: the counters are
balanced, nothing has panicked, the first goroutine is the client and the
others are the workers of the tasks submitted so far, in order; the consumer
has received exactly the errors of the workers that completed their send; and
the error channel is closed only once the client has finished `Wait`, with
the waiter's counter at zero. -/
def BatchInv (tasks : List Task) (s : Sys) : Prop :=
  Balanced s ∧ s.panicked = false ∧ s.p.semaphore.closed = false ∧ s.draining = true ∧
  ∃ (pc : CallerPc) (calls : List Call) (ws : List Thread) (rem : List Task),
    s.threads = Thread.caller pc calls :: ws ∧
    (∀ t ∈ ws, ∃ wpc fn, t = Thread.worker wpc fn ∧
      ∀ e, wpc = WorkerPc.errSend e → fn = some e) ∧
    ws.map Thread.fn ++ rem = tasks ∧
    s.received.Perm (ws.filterMap Thread.delivered) ∧
    ((calls = rem.map Call.Run ++ [Call.Wait] ∧ s.waiter.errch.closed = false ∧
        (rem ≠ [] → pc ≠ CallerPc.closeCh) ∧
        (rem = [] → (pc = CallerPc.entry ∨ (pc = CallerPc.closeCh ∧ s.waiter.wg = 0)))) ∨
      (calls = [] ∧ rem = [] ∧ s.waiter.errch.closed = true ∧ s.waiter.wg = 0 ∧
        pc = CallerPc.entry))

/-- Number of steps of the goroutine started by `Run` for the task `fn`. -/
def workerSteps (fn : Task) : Nat :=
  match fn with
  | none => 4
  | some _ => 5

/-- Number of steps a call costs, those of the goroutine it starts
included. -/
def Call.cost : Call → Nat
  | .Run fn => 4 + workerSteps fn
  | .Wait => 2
  | .Close => 2

/-- Number of statements of the current call a client has executed. -/
def CallerPc.done : CallerPc → Nat
  | .entry => 0
  | .acquireSend => 1
  | .acquireAdd => 2
  | .spawn => 3
  | .closeCh => 1

/-- Number of steps a goroutine, and the goroutines it will start, have
left. -/
def Thread.fuel : Thread → Nat
  | .caller pc calls => (calls.map Call.cost).sum - pc.done
  | .worker .call fn => workerSteps fn
  | .worker (.errSend _) _ => 4
  | .worker .release _ => 3
  | .worker .semRecv _ => 2
  | .worker .waiterDone _ => 1
  | .worker .exited _ => 0

/-- Number of steps left in a state. -/
def Sys.fuel (s : Sys) : Nat := (s.threads.map Thread.fuel).sum

/-! ## Concrete collaborators used to instantiate the theorems -/

/-- A storage whose `Stat` answers from a fixed table; the world is trivial and
client construction never fails. -/
def tableStorage (notFound : GoError)
    (tbl : ObjectURL → Option Object × Option GoError) : Storage Unit Unit where
  ErrGivenObjectNotFound := notFound
  NewClient := fun _ w => (((), none), w)
  Stat := fun _ url w => (tbl url, w)

/-- The sentinel `storage.ErrGivenObjectNotFound` of the sample storages. -/
def sampleNotFound : GoError := .errorString 100 "given object not found"

/-- A transport failure of the sample storages. -/
def sampleTransportErr : GoError := .errorString 101 "connection reset"

/-- Sample table: `"src"` has size 10 and time 5, `"dst"` size 20 and time 5,
`"same"` size 10 and time 4, `"down"` fails, everything else is not found. -/
def sampleTable (url : ObjectURL) : Option Object × Option GoError :=
  if url = "src" then (some ⟨"src", 10, some 5⟩, none)
  else if url = "dst" then (some ⟨"dst", 20, some 5⟩, none)
  else if url = "same" then (some ⟨"same", 10, some 4⟩, none)
  else if url = "down" then (none, some sampleTransportErr)
  else (none, some sampleNotFound)

/-- The sample storage. -/
def sampleStorage : Storage Unit Unit := tableStorage sampleNotFound sampleTable

/-! ## Properties of `getObject` and `checkConditions` -/

/-- Every `getObject` call is recorded once, whatever its outcome. -/
theorem getObject_lookups {σ κ : Type} (S : Storage σ κ) (url : ObjectURL) (r : Run σ) :
    (getObject S url r).2.lookups = url :: r.lookups := by
  unfold getObject
  split
  · rfl
  · split
    split <;> rfl

/-- With a flag set, `checkConditions` is the two lookups followed by the
sticky chain. -/
theorem checkConditions_of_lookups {σ κ : Type} (S : Storage σ κ) (src dst : ObjectURL)
    (noClobber ifSizeDiffer ifSourceNewer : Bool) (r r1 r2 : Run σ)
    (srcObj : Option Object) (dstObj : Object)
    (hflag : noClobber = true ∨ ifSizeDiffer = true ∨ ifSourceNewer = true)
    (hsrc : getObject S src r = ((srcObj, none), r1))
    (hdst : getObject S dst r1 = ((some dstObj, none), r2)) :
    checkConditions S src dst noClobber ifSizeDiffer ifSourceNewer r =
      (stickyChain srcObj dstObj noClobber ifSizeDiffer ifSourceNewer, r2) := by
  have hcond : (!noClobber && !ifSizeDiffer && !ifSourceNewer) = false := by
    rcases hflag with h | h | h <;> simp [h]
  simp only [checkConditions, hcond, hsrc, hdst]
  rfl

/-- C1: when both lookups return a descriptor, `ifSizeDiffer` is set and
`ifSourceNewer` is not, the result is `ErrObjectSizesMatch` for equal sizes and
nil for different sizes, for either value of `noClobber`. -/
theorem checkConditions_ifSizeDiffer {σ κ : Type} (S : Storage σ κ) (src dst : ObjectURL)
    (noClobber : Bool) (r r1 r2 : Run σ) (srcObj dstObj : Object)
    (hsrc : getObject S src r = ((some srcObj, none), r1))
    (hdst : getObject S dst r1 = ((some dstObj, none), r2)) :
    checkConditions S src dst noClobber true false r =
      (.ok (if srcObj.Size = dstObj.Size then some ErrObjectSizesMatch else none), r2) := by
  rw [checkConditions_of_lookups S src dst noClobber true false r r1 r2 (some srcObj) dstObj
    (Or.inr (Or.inl rfl)) hsrc hdst]
  by_cases h : srcObj.Size = dstObj.Size <;> simp [stickyChain, h]

/-- C1, instance: `noClobber` and `ifSizeDiffer` set, sizes 10 and 20, the
result is nil. -/
theorem checkConditions_ifSizeDiffer_witness :
    checkConditions sampleStorage "src" "dst" true true false ⟨(), []⟩ =
      (.ok none, ⟨(), ["dst", "src"]⟩) :=
  checkConditions_ifSizeDiffer sampleStorage "src" "dst" true ⟨(), []⟩ ⟨(), ["src"]⟩
    ⟨(), ["dst", "src"]⟩ ⟨"src", 10, some 5⟩ ⟨"dst", 20, some 5⟩ (by rfl) (by rfl)

/-- C2: when both lookups return a descriptor carrying a modification time and
`ifSourceNewer` is set, the result is nil exactly when the source time is
strictly after the destination time and `ErrObjectIsNewer` otherwise, whatever
`noClobber`, `ifSizeDiffer` and the sizes are. -/
theorem checkConditions_ifSourceNewer {σ κ : Type} (S : Storage σ κ) (src dst : ObjectURL)
    (noClobber ifSizeDiffer : Bool) (r r1 r2 : Run σ) (srcObj dstObj : Object)
    (srcMod dstMod : Time)
    (hsrc : getObject S src r = ((some srcObj, none), r1))
    (hdst : getObject S dst r1 = ((some dstObj, none), r2))
    (hsm : srcObj.ModTime = some srcMod) (hdm : dstObj.ModTime = some dstMod) :
    checkConditions S src dst noClobber ifSizeDiffer true r =
        (.ok (if dstMod < srcMod then none else some ErrObjectIsNewer), r2) ∧
      ((checkConditions S src dst noClobber ifSizeDiffer true r).1 = .ok none ↔
        dstMod < srcMod) := by
  have key : checkConditions S src dst noClobber ifSizeDiffer true r =
      (.ok (if dstMod < srcMod then none else some ErrObjectIsNewer), r2) := by
    rw [checkConditions_of_lookups S src dst noClobber ifSizeDiffer true r r1 r2
      (some srcObj) dstObj (Or.inr (Or.inr rfl)) hsrc hdst]
    by_cases h : dstMod < srcMod <;> cases ifSizeDiffer <;>
      by_cases hs : srcObj.Size = dstObj.Size <;>
      simp [stickyChain, hsm, hdm, Time.After, h, hs]
  refine ⟨key, ?_⟩
  rw [key]
  by_cases h : dstMod < srcMod <;> simp [h]

/-- C2, instance: all three flags set, equal sizes, source time 5 against
destination time 4: the result is nil. -/
theorem checkConditions_ifSourceNewer_witness :
    checkConditions sampleStorage "src" "same" true true true ⟨(), []⟩ =
        (.ok none, ⟨(), ["same", "src"]⟩) ∧
      ((checkConditions sampleStorage "src" "same" true true true ⟨(), []⟩).1 = .ok none ↔
        (4 : Time) < 5) :=
  checkConditions_ifSourceNewer sampleStorage "src" "same" true true ⟨(), []⟩ ⟨(), ["src"]⟩
    ⟨(), ["same", "src"]⟩ ⟨"src", 10, some 5⟩ ⟨"same", 10, some 4⟩ 5 4
    (by rfl) (by rfl) (by rfl) (by rfl)

/-- C3: with the three flags false `checkConditions` returns nil and leaves the
run untouched: no `getObject` call is recorded and the world is unchanged, for
every storage collaborator. -/
theorem checkConditions_noFlags {σ κ : Type} (S : Storage σ κ) (src dst : ObjectURL)
    (r : Run σ) :
    checkConditions S src dst false false false r = (.ok none, r) ∧
      (checkConditions S src dst false false false r).2.lookups = r.lookups := by
  constructor <;> rfl

/-- C4: with a flag set, an error of the source lookup is returned as is and
only the source lookup is recorded; an error of the destination lookup after a
clean source lookup is returned as is; and a `Stat` answering
`ErrGivenObjectNotFound` makes `getObject` return `(nil, nil)`, no error. -/
theorem checkConditions_lookup_error {σ κ : Type} (S : Storage σ κ) (src dst : ObjectURL)
    (noClobber ifSizeDiffer ifSourceNewer : Bool) (r : Run σ)
    (hflag : noClobber = true ∨ ifSizeDiffer = true ∨ ifSourceNewer = true) :
    (∀ (o : Option Object) (e : GoError) (r1 : Run σ),
        getObject S src r = ((o, some e), r1) →
        checkConditions S src dst noClobber ifSizeDiffer ifSourceNewer r =
            (.ok (some e), r1) ∧
          r1.lookups = src :: r.lookups) ∧
      (∀ (o o2 : Option Object) (e : GoError) (r1 r2 : Run σ),
        getObject S src r = ((o, none), r1) →
        getObject S dst r1 = ((o2, some e), r2) →
        checkConditions S src dst noClobber ifSizeDiffer ifSourceNewer r =
          (.ok (some e), r2)) ∧
      (∀ (url : ObjectURL) (r0 : Run σ) (client : κ) (w1 w2 : σ) (obj : Option Object),
        S.NewClient url r0.world = ((client, none), w1) →
        S.Stat client url w1 = ((obj, some S.ErrGivenObjectNotFound), w2) →
        (getObject S url r0).1 = (none, none)) := by
  have hcond : (!noClobber && !ifSizeDiffer && !ifSourceNewer) = false := by
    rcases hflag with h | h | h <;> simp [h]
  refine ⟨?_, ?_, ?_⟩
  · intro o e r1 h
    refine ⟨?_, ?_⟩
    · simp only [checkConditions, hcond, h]
      rfl
    · have := getObject_lookups S src r
      rw [h] at this
      exact this
  · intro o o2 e r1 r2 h1 h2
    simp only [checkConditions, hcond, h1, h2]
    rfl
  · intro url r0 client w1 w2 obj h1 h2
    simp [getObject, h1, h2]

/-- C4, instance: the source `"down"` fails in transport; with `noClobber` set
the result is that error and only `"down"` has been looked up. -/
theorem checkConditions_lookup_error_witness :
    checkConditions sampleStorage "down" "dst" true false false ⟨(), []⟩ =
        (.ok (some sampleTransportErr), ⟨(), ["down"]⟩) ∧
      (⟨(), ["down"]⟩ : Run Unit).lookups = "down" :: [] :=
  (checkConditions_lookup_error sampleStorage "down" "dst" true false false ⟨(), []⟩
    (Or.inl rfl)).1 none sampleTransportErr ⟨(), ["down"]⟩ (by rfl)

/-- C5: with a flag set, no error from either lookup and an absent
destination, the result is nil for every flag combination and every source
outcome, a source that is not found included. -/
theorem checkConditions_dst_absent {σ κ : Type} (S : Storage σ κ) (src dst : ObjectURL)
    (noClobber ifSizeDiffer ifSourceNewer : Bool) (r r1 r2 : Run σ)
    (srcObj : Option Object)
    (hflag : noClobber = true ∨ ifSizeDiffer = true ∨ ifSourceNewer = true)
    (hsrc : getObject S src r = ((srcObj, none), r1))
    (hdst : getObject S dst r1 = ((none, none), r2)) :
    checkConditions S src dst noClobber ifSizeDiffer ifSourceNewer r = (.ok none, r2) := by
  have hcond : (!noClobber && !ifSizeDiffer && !ifSourceNewer) = false := by
    rcases hflag with h | h | h <;> simp [h]
  simp only [checkConditions, hcond, hsrc, hdst]
  rfl

/-- C5, instance: source and destination both not found, all flags set. -/
theorem checkConditions_dst_absent_witness :
    checkConditions sampleStorage "nowhere" "missing" true true true ⟨(), []⟩ =
      (.ok none, ⟨(), ["missing", "nowhere"]⟩) :=
  checkConditions_dst_absent sampleStorage "nowhere" "missing" true true true ⟨(), []⟩
    ⟨(), ["nowhere"]⟩ ⟨(), ["missing", "nowhere"]⟩ none (Or.inl rfl) (by rfl) (by rfl)

/-- C6: with only `noClobber` set and no lookup error, an existing destination
gives `ErrObjectExists`, whatever the source lookup found and whatever the
sizes and times are. -/
theorem checkConditions_noClobber {σ κ : Type} (S : Storage σ κ) (src dst : ObjectURL)
    (r r1 r2 : Run σ) (srcObj : Option Object) (dstObj : Object)
    (hsrc : getObject S src r = ((srcObj, none), r1))
    (hdst : getObject S dst r1 = ((some dstObj, none), r2)) :
    checkConditions S src dst true false false r = (.ok (some ErrObjectExists), r2) := by
  rw [checkConditions_of_lookups S src dst true false false r r1 r2 srcObj dstObj
    (Or.inl rfl) hsrc hdst]
  rfl

/-- C6, instance: the source is not found, the destination exists. -/
theorem checkConditions_noClobber_witness :
    checkConditions sampleStorage "nowhere" "dst" true false false ⟨(), []⟩ =
      (.ok (some ErrObjectExists), ⟨(), ["dst", "nowhere"]⟩) :=
  checkConditions_noClobber sampleStorage "nowhere" "dst" ⟨(), []⟩ ⟨(), ["nowhere"]⟩
    ⟨(), ["dst", "nowhere"]⟩ none ⟨"dst", 20, some 5⟩ (by rfl) (by rfl)

/-- A value returned by the sticky chain is nil or one of the three skip
errors. -/
theorem stickyChain_result (srcObj : Option Object) (dstObj : Object)
    (noClobber ifSizeDiffer ifSourceNewer : Bool) (res : Option GoError)
    (h : stickyChain srcObj dstObj noClobber ifSizeDiffer ifSourceNewer = .ok res) :
    res = none ∨ res = some ErrObjectExists ∨ res = some ErrObjectIsNewer ∨
      res = some ErrObjectSizesMatch := by
  rcases dstObj with ⟨du, dsz, dmt⟩
  rcases srcObj with _ | ⟨su, ssz, smt⟩
  · cases noClobber <;> cases ifSizeDiffer <;> cases ifSourceNewer <;>
      simp [stickyChain] at h <;> subst h <;> simp
  · by_cases hs : ssz = dsz <;> rcases smt with _ | sm <;> rcases dmt with _ | dm <;>
      cases noClobber <;> cases ifSizeDiffer <;> cases ifSourceNewer <;>
      simp [stickyChain, hs] at h <;>
      first
        | (subst h; simp)
        | (split at h <;> cases h <;> simp)

/-- C7: a non-nil result of `checkConditions` is one of the three skip errors,
or the error of the source lookup, or the error of the destination lookup made
after a clean source lookup; and when neither lookup reports an error every
returned result is nil or a warning. -/
theorem checkConditions_result_origin {σ κ : Type} (S : Storage σ κ) (src dst : ObjectURL)
    (noClobber ifSizeDiffer ifSourceNewer : Bool) (r : Run σ) :
    (∀ e : GoError,
        (checkConditions S src dst noClobber ifSizeDiffer ifSourceNewer r).1 = .ok (some e) →
        e = ErrObjectExists ∨ e = ErrObjectIsNewer ∨ e = ErrObjectSizesMatch ∨
          (getObject S src r).1.2 = some e ∨
          ((getObject S src r).1.2 = none ∧
            (getObject S dst (getObject S src r).2).1.2 = some e)) ∧
      ((getObject S src r).1.2 = none →
        (getObject S dst (getObject S src r).2).1.2 = none →
        ∀ res : Option GoError,
          (checkConditions S src dst noClobber ifSizeDiffer ifSourceNewer r).1 = .ok res →
          res = none ∨ isWarning res = true) := by
  rcases h1 : getObject S src r with ⟨⟨so, se⟩, r1⟩
  rcases h2 : getObject S dst r1 with ⟨⟨dobj, de⟩, r2⟩
  by_cases hcond : (!noClobber && !ifSizeDiffer && !ifSourceNewer) = true
  · simp [checkConditions, hcond]
  · have hcond : (!noClobber && !ifSizeDiffer && !ifSourceNewer) = false := by
      simpa using hcond
    rcases se with _ | se
    · rcases de with _ | de
      · rcases dobj with _ | dobj
        · simp [checkConditions, hcond, h1, h2]
        · have hc : checkConditions S src dst noClobber ifSizeDiffer ifSourceNewer r =
              (stickyChain so dobj noClobber ifSizeDiffer ifSourceNewer, r2) := by
            simp only [checkConditions, hcond, h1, h2]
            rfl
          rw [hc]
          refine ⟨?_, ?_⟩
          · intro e he
            rcases stickyChain_result _ _ _ _ _ _ he with h | h | h | h
            · cases h
            · left; exact (Option.some.inj h)
            · right; left; exact (Option.some.inj h)
            · right; right; left; exact (Option.some.inj h)
          · intro _ _ res hres
            rcases stickyChain_result _ _ _ _ _ _ hres with h | h | h | h
            · left; exact h
            all_goals (right; subst h; decide)
      · have hc : checkConditions S src dst noClobber ifSizeDiffer ifSourceNewer r =
            (.ok (some de), r2) := by
          simp only [checkConditions, hcond, h1, h2]
          rfl
        rw [hc]
        simp
    · have hc : checkConditions S src dst noClobber ifSizeDiffer ifSourceNewer r =
          (.ok (some se), r1) := by
        simp only [checkConditions, hcond, h1]
        rfl
      rw [hc]
      simp

/-- C7, instance: `noClobber` alone on an existing destination; the result
`ErrObjectExists` is a skip error and a warning. -/
theorem checkConditions_result_origin_witness :
    (ErrObjectExists = ErrObjectExists ∨ ErrObjectExists = ErrObjectIsNewer ∨
        ErrObjectExists = ErrObjectSizesMatch ∨
        (getObject sampleStorage "src" ⟨(), []⟩).1.2 = some ErrObjectExists ∨
        ((getObject sampleStorage "src" ⟨(), []⟩).1.2 = none ∧
          (getObject sampleStorage "dst" (getObject sampleStorage "src" ⟨(), []⟩).2).1.2 =
            some ErrObjectExists)) ∧
      (some ErrObjectExists = none ∨ isWarning (some ErrObjectExists) = true) :=
  ⟨(checkConditions_result_origin sampleStorage "src" "dst" true false false ⟨(), []⟩).1
      ErrObjectExists (by rfl),
    (checkConditions_result_origin sampleStorage "src" "dst" true false false ⟨(), []⟩).2
      (by rfl) (by rfl) (some ErrObjectExists) (by rfl)⟩

/-! ## Properties of the error classifier -/

/-- C8, refuted as stated: `IsAcceptableError` does not return an acceptable
error for `ErrObjectExists`, which is a plain `fmt.Errorf` value. -/
theorem ErrObjectExists_not_acceptable :
    ¬ ∃ a : GoError, IsAcceptableError (some ErrObjectExists) = some a ∧
      a.Acceptable = some true := by
  simp [IsAcceptableError, ErrObjectExists, GoError.implementsAcceptable]

/-- C8, amended: each of the three skip errors is a warning for `isWarning`,
and `IsAcceptableError` returns nil for each of them. -/
theorem skip_errors_are_warnings :
    (isWarning (some ErrObjectExists) = true ∧ isWarning (some ErrObjectIsNewer) = true ∧
        isWarning (some ErrObjectSizesMatch) = true) ∧
      (IsAcceptableError (some ErrObjectExists) = none ∧
        IsAcceptableError (some ErrObjectIsNewer) = none ∧
        IsAcceptableError (some ErrObjectSizesMatch) = none) := by
  decide

/-! ## Capacity resolution of `New` -/

/-- An integer inside the two's complement range is left alone by `wrapInt`. -/
theorem wrapInt_of_inRange (w : Nat) (x : Int) (hw : 0 < w)
    (hlo : -2 ^ (w - 1) ≤ x) (hhi : x < 2 ^ (w - 1)) : wrapInt w x = x := by
  obtain ⟨k, rfl⟩ : ∃ k, w = k + 1 := ⟨w - 1, by omega⟩
  have h2 : (2 : Int) ^ (k + 1) = 2 * 2 ^ k := by ring
  simp only [Nat.add_sub_cancel] at hlo hhi
  unfold wrapInt
  simp only [Nat.add_sub_cancel]
  generalize (2 : Int) ^ k = p at *
  rw [h2, Int.emod_eq_of_lt (by omega) (by omega)]
  omega

/-- The floor at `minNumWorkers` is a maximum. -/
theorem floor_eq_max (x : Int) : (if x < 2 then 2 else x) = max 2 x := by
  split
  · rw [max_eq_left (by omega)]
  · rw [max_eq_right (by omega)]

/-- For a non-negative `workercount` the channel is made with `max(2, V)`. -/
theorem New_of_nonneg (w : Nat) (limit H V : Int) (h0 : 0 ≤ V) :
    New w limit H V = managerOfCap limit (max 2 V) := by
  have hn : ¬ V < 0 := by omega
  simp only [New, hn, if_false, minNumWorkers, managerOfCap, floor_eq_max]

/-- For a negative `workercount` whose product with the CPU count fits the
`int` range, the channel is made with `max(2, |V| * H)`. -/
theorem New_of_neg (w : Nat) (limit H V : Int) (hw : 0 < w) (hH1 : 1 ≤ H)
    (hneg : V < 0) (hprod : |V| * H < 2 ^ (w - 1)) :
    New w limit H V = managerOfCap limit (max 2 (|V| * H)) := by
  rw [abs_of_neg hneg] at hprod ⊢
  have hnV : 0 < -V := by omega
  have hle : -V ≤ -V * H := by nlinarith
  have hp0 : (0 : Int) ≤ 2 ^ (w - 1) := by positivity
  have h1 : wrapInt w (-V) = -V :=
    wrapInt_of_inRange w (-V) hw (by omega) (by omega)
  have hpos : 0 ≤ H * -V := by nlinarith
  have h2 : wrapInt w (H * -V) = H * -V :=
    wrapInt_of_inRange w _ hw (by omega) (by rw [mul_comm]; exact hprod)
  simp only [New, hneg, if_true, h1, h2, minNumWorkers, managerOfCap, floor_eq_max]
  rw [mul_comm H (-V)]

/-- A manager returned for a resolved worker count has that capacity, and one
is returned whenever the count is between 0 and the allocation limit. -/
theorem managerOfCap_spec (limit n : Int) :
    (∀ m : Manager, managerOfCap limit n = .ok m → m.semaphore.cap = n) ∧
      (0 ≤ n → n ≤ limit →
        managerOfCap limit n = .ok { wg := 0, semaphore := { cap := n, len := 0, closed := false } }) := by
  constructor
  · intro m hm
    by_cases hc : n < 0 ∨ limit < n
    · simp [managerOfCap, makeChan, hc] at hm
    · simp only [managerOfCap, makeChan, hc, if_false] at hm
      cases hm
      rfl
  · intro h0 hl
    have hc : ¬ (n < 0 ∨ limit < n) := by omega
    simp [managerOfCap, makeChan, hc]

/-- C9, refuted as stated: on 64 bits with one CPU the most negative
`workercount` gives a semaphore of capacity 2, while `max(2, |V| * H)` is
`2 ^ 63`. -/
theorem New_wraps_at_minInt :
    New 64 (2 ^ 48) 1 (-9223372036854775808) =
        .ok { wg := 0, semaphore := { cap := 2, len := 0, closed := false } } ∧
      max 2 (|(-9223372036854775808 : Int)| * 1) = 9223372036854775808 ∧
      ¬ ∀ m : Manager, New 64 (2 ^ 48) 1 (-9223372036854775808) = .ok m →
        m.semaphore.cap = max 2 (|(-9223372036854775808 : Int)| * 1) := by
  have h : New 64 (2 ^ 48) 1 (-9223372036854775808) =
      .ok { wg := 0, semaphore := { cap := 2, len := 0, closed := false } } := by decide
  refine ⟨h, by norm_num, ?_⟩
  intro hall
  have := hall _ h
  norm_num at this

/-- C9, amended: for a `w`-bit `workercount` `V` and `H >= 1` CPUs, a semaphore
that `New` creates has capacity `max(2, V)` when `V >= 0`, and
`max(2, |V| * H)` when `V < 0` and the product `|V| * H` fits the `int` range;
and `New` does create it when that capacity is within the allocation limit. -/
theorem New_capacity (w : Nat) (limit H V : Int) (hw : 0 < w) (hH1 : 1 ≤ H)
    (hVlo : -2 ^ (w - 1) ≤ V) (hVhi : V < 2 ^ (w - 1)) :
    (0 ≤ V →
        (∀ m : Manager, New w limit H V = .ok m → m.semaphore.cap = max 2 V) ∧
        (max 2 V ≤ limit → New w limit H V =
          .ok { wg := 0, semaphore := { cap := max 2 V, len := 0, closed := false } })) ∧
      (V < 0 → |V| * H < 2 ^ (w - 1) →
        (∀ m : Manager, New w limit H V = .ok m → m.semaphore.cap = max 2 (|V| * H)) ∧
        (max 2 (|V| * H) ≤ limit → New w limit H V =
          .ok { wg := 0, semaphore := { cap := max 2 (|V| * H), len := 0, closed := false } })) := by
  have _hrange := And.intro hVlo hVhi
  constructor
  · intro h0
    rw [New_of_nonneg w limit H V h0]
    exact ⟨(managerOfCap_spec limit _).1,
      (managerOfCap_spec limit _).2 (le_trans (by norm_num) (le_max_left 2 V))⟩
  · intro hneg hprod
    rw [New_of_neg w limit H V hw hH1 hneg hprod]
    exact ⟨(managerOfCap_spec limit _).1,
      (managerOfCap_spec limit _).2 (le_trans (by norm_num) (le_max_left 2 _))⟩

/-- C9, instances on 64 bits with limit `2 ^ 48`: `New(5)` with 8 CPUs has
capacity 5, and `New(-3)` with 4 CPUs has capacity 12. -/
theorem New_capacity_witness :
    New 64 (2 ^ 48) 8 5 =
        .ok { wg := 0, semaphore := { cap := max 2 5, len := 0, closed := false } } ∧
      New 64 (2 ^ 48) 4 (-3) =
        .ok { wg := 0, semaphore := { cap := max 2 (|(-3 : Int)| * 4), len := 0, closed := false } } :=
  ⟨((New_capacity 64 (2 ^ 48) 8 5 (by decide) (by decide) (by norm_num) (by norm_num)).1
      (by decide)).2 (by norm_num),
    ((New_capacity 64 (2 ^ 48) 4 (-3) (by decide) (by decide) (by norm_num) (by norm_num)).2
      (by decide) (by norm_num)).2 (by norm_num)⟩

/-! ## Properties of `CleanupError` -/

/-- Replacing a one-character pattern leaves no occurrence of that character,
provided the replacement does not contain it. -/
theorem replaceGo_single_not_mem (c : Char) (new : List Char) (hnew : c ∉ new) :
    ∀ (s : List Char) (skip : Nat), c ∉ replaceGo [c] new skip s := by
  intro s
  induction s with
  | nil => intro skip; cases skip <;> simp [replaceGo]
  | cons x cs ih =>
    intro skip
    cases skip with
    | succ k => simpa [replaceGo] using ih k
    | zero =>
      by_cases hx : c = x
      · subst hx
        simp [replaceGo, List.isPrefixOf, hnew, ih 0]
      · have hx2 : ¬ x = c := fun h => hx h.symm
        simp [replaceGo, List.isPrefixOf, hx, hx2, ih 0]

/-- A replacement introduces no character that is absent from both the input
and the replacement text. -/
theorem replaceGo_not_mem (c : Char) (old new : List Char) (hnew : c ∉ new) :
    ∀ (s : List Char) (skip : Nat), c ∉ s → c ∉ replaceGo old new skip s := by
  intro s
  induction s with
  | nil => intro skip _; cases skip <;> simp [replaceGo]
  | cons x cs ih =>
    intro skip hs
    have hx : ¬ c = x := fun h => hs (by simp [h])
    have hcs : c ∉ cs := fun h => hs (by simp [h])
    cases skip with
    | succ k => simpa [replaceGo] using ih k hcs
    | zero =>
      simp only [replaceGo]
      split
      · simp [hnew, ih _ hcs]
      · simp [hx, ih 0 hcs]

/-- Trimming only removes characters. -/
theorem trim_subset (s : List Char) :
    ((s.dropWhile unicodeIsSpace).reverse.dropWhile unicodeIsSpace).reverse ⊆ s := by
  intro c hc
  have h1 : c ∈ (s.dropWhile unicodeIsSpace).reverse :=
    (List.dropWhile_suffix unicodeIsSpace).subset (List.mem_reverse.mp hc)
  exact (List.dropWhile_suffix unicodeIsSpace).subset (List.mem_reverse.mp h1)

/-- The last character of a trimmed text is not white space. -/
theorem trim_getLast (s : List Char) (c : Char)
    (h : (((s.dropWhile unicodeIsSpace).reverse.dropWhile unicodeIsSpace).reverse).getLast?
      = some c) : unicodeIsSpace c = false := by
  rw [List.getLast?_reverse] at h
  have := List.head?_dropWhile_not unicodeIsSpace (s.dropWhile unicodeIsSpace).reverse
  rw [h] at this
  simpa using this

/-- The first character of a trimmed text is not white space. -/
theorem trim_head (s : List Char) (c : Char)
    (h : (((s.dropWhile unicodeIsSpace).reverse.dropWhile unicodeIsSpace).reverse).head?
      = some c) : unicodeIsSpace c = false := by
  have hp : ((s.dropWhile unicodeIsSpace).reverse.dropWhile unicodeIsSpace).reverse <+:
      s.dropWhile unicodeIsSpace := List.rdropWhile_prefix unicodeIsSpace _
  obtain ⟨t, ht⟩ := hp
  have h0 := List.head?_dropWhile_not unicodeIsSpace s
  rw [← ht] at h0
  generalize ((s.dropWhile unicodeIsSpace).reverse.dropWhile unicodeIsSpace).reverse = u at h h0
  cases u with
  | nil => simp at h
  | cons a as =>
    simp at h h0
    subst h
    exact h0

/-- C10: for every error, `CleanupError` returns a string without newline and
without tab whose first and last characters are not white space; and the
message `"a\nb\t\tc  d"` becomes `"a b c d"`. -/
theorem CleanupError_single_line (e : GoError) :
    (∃ s : String, CleanupError (some e) = .ok s ∧
        '\n' ∉ s.data ∧ '\t' ∉ s.data ∧
        (∀ c, s.data.head? = some c → unicodeIsSpace c = false) ∧
        (∀ c, s.data.getLast? = some c → unicodeIsSpace c = false)) ∧
      (∀ addr : Nat, CleanupError (some (errorsNew addr "a\nb\t\tc  d")) = .ok "a b c d") := by
  refine ⟨⟨_, rfl, ?_, ?_, ?_, ?_⟩, fun _ => by rfl⟩
  · intro hmem
    have h1 := trim_subset _ hmem
    revert h1
    simp only [stringsReplaceAll]
    apply replaceGo_not_mem _ _ _ (by decide)
    apply replaceGo_not_mem _ _ _ (by decide)
    exact replaceGo_single_not_mem _ _ (by decide) _ _
  · intro hmem
    have h1 := trim_subset _ hmem
    revert h1
    simp only [stringsReplaceAll]
    apply replaceGo_not_mem _ _ _ (by decide)
    exact replaceGo_single_not_mem _ _ (by decide) _ _
  · intro c hc
    exact trim_head _ c hc
  · intro c hc
    exact trim_getLast _ c hc

/-- Unfolding of the double-space replacement at two leading spaces. -/
theorem replaceGo_spaces_pair (rest : List Char) :
    replaceGo [' ', ' '] [' '] 0 (' ' :: ' ' :: rest) =
      ' ' :: replaceGo [' ', ' '] [' '] 0 rest := by
  simp [replaceGo, List.isPrefixOf]

/-- Unfolding of the double-space replacement when the input does not start
with two spaces. -/
theorem replaceGo_spaces_keep (a : Char) (l : List Char)
    (h : ¬ (a = ' ' ∧ l.head? = some ' ')) :
    replaceGo [' ', ' '] [' '] 0 (a :: l) = a :: replaceGo [' ', ' '] [' '] 0 l := by
  cases l with
  | nil => simp [replaceGo, List.isPrefixOf]
  | cons b t =>
    have h2 : ¬ (a = ' ' ∧ b = ' ') := by simpa using h
    have h3 : ¬ (' ' = a ∧ ' ' = b) := fun ⟨x, y⟩ => h2 ⟨x.symm, y.symm⟩
    simp only [replaceGo, List.isPrefixOf]
    simp [h3]

/-- The double-space replacement keeps the first character. -/
theorem replaceGo_spaces_head (l : List Char) :
    (replaceGo [' ', ' '] [' '] 0 l).head? = l.head? := by
  cases l with
  | nil => simp [replaceGo]
  | cons a t =>
    by_cases h : a = ' ' ∧ t.head? = some ' '
    · obtain ⟨ha, ht⟩ := h
      cases t with
      | nil => simp at ht
      | cons b t2 =>
        simp at ht
        subst ha; subst ht
        rw [replaceGo_spaces_pair]
        rfl
    · rw [replaceGo_spaces_keep a t h]
      rfl

/-- A text without three consecutive spaces has no two consecutive spaces
after one pass of the double-space replacement. -/
theorem replaceGo_spaces_chain (n : Nat) :
    ∀ l : List Char, l.length ≤ n → ¬ ([' ', ' ', ' '] <:+: l) →
      List.Chain' (fun a b => ¬ (a = ' ' ∧ b = ' ')) (replaceGo [' ', ' '] [' '] 0 l) := by
  induction n with
  | zero =>
    intro l hl _
    have : l = [] := List.eq_nil_of_length_eq_zero (by omega)
    subst this
    simp [replaceGo]
  | succ n ih =>
    intro l hl h3
    cases l with
    | nil => simp [replaceGo]
    | cons a t =>
      have ht3 : ¬ ([' ', ' ', ' '] <:+: t) := fun hi =>
        h3 (hi.trans (List.suffix_cons a t).isInfix)
      by_cases h : a = ' ' ∧ t.head? = some ' '
      · obtain ⟨ha, ht⟩ := h
        cases t with
        | nil => simp at ht
        | cons b t2 =>
          simp at ht
          subst ha; subst ht
          rw [replaceGo_spaces_pair]
          have ht23 : ¬ ([' ', ' ', ' '] <:+: t2) := fun hi =>
            ht3 (hi.trans (List.suffix_cons _ t2).isInfix)
          have ih2 := ih t2 (by simp at hl; omega) ht23
          have hhead := replaceGo_spaces_head t2
          cases hr : replaceGo [' ', ' '] [' '] 0 t2 with
          | nil => simp
          | cons c r =>
            rw [hr] at ih2 hhead
            rw [List.chain'_cons]
            refine ⟨?_, ih2⟩
            rintro ⟨_, hc⟩
            subst hc
            cases t2 with
            | nil => simp at hhead
            | cons d t3 =>
              simp at hhead
              subst hhead
              exact h3 ⟨[], t3, rfl⟩
      · rw [replaceGo_spaces_keep a t h]
        have ih2 := ih t (by simp at hl; omega) ht3
        have hhead := replaceGo_spaces_head t
        cases hr : replaceGo [' ', ' '] [' '] 0 t with
        | nil => simp
        | cons c r =>
          rw [hr] at ih2 hhead
          rw [List.chain'_cons]
          refine ⟨?_, ih2⟩
          rintro ⟨ha, hc⟩
          exact h ⟨ha, by rw [← hhead, hc]; rfl⟩

/-- A list whose adjacent characters are never both spaces does not contain
two consecutive spaces. -/
theorem not_infix_of_chain (l : List Char)
    (h : List.Chain' (fun a b => ¬ (a = ' ' ∧ b = ' ')) l) : ¬ ([' ', ' '] <:+: l) := by
  intro hi
  have := h.infix hi
  simp at this

/-- Trimming returns a contiguous part of its input. -/
theorem trim_contiguous (s : List Char) :
    ((s.dropWhile unicodeIsSpace).reverse.dropWhile unicodeIsSpace).reverse <:+: s :=
  (List.rdropWhile_prefix unicodeIsSpace (s.dropWhile unicodeIsSpace)).isInfix.trans
    (List.dropWhile_suffix unicodeIsSpace).isInfix

/-- C11, refuted as stated: three spaces between two letters leave two
consecutive spaces in the result. -/
theorem CleanupError_keeps_double_space :
    CleanupError (some (errorsNew 0 "a   b")) = .ok "a  b" ∧
      [' ', ' '] <:+: ("a  b" : String).data := by
  refine ⟨by decide, ⟨['a'], ['b'], rfl⟩⟩

/-- C11, amended: when the message, after newlines and tabs have been replaced
by spaces, has no three consecutive spaces, the string `CleanupError` returns
has no two consecutive spaces. -/
theorem CleanupError_no_double_space (e : GoError)
    (h : ¬ ([' ', ' ', ' '] <:+:
      (stringsReplaceAll (stringsReplaceAll e.Error "\n" " ") "\t" " ").data)) :
    ∃ s : String, CleanupError (some e) = .ok s ∧ ¬ ([' ', ' '] <:+: s.data) := by
  refine ⟨_, rfl, ?_⟩
  intro hi
  have h1 := hi.trans (trim_contiguous _)
  exact not_infix_of_chain _ (replaceGo_spaces_chain _ _ le_rfl h) h1

/-- C11, instance: the message `"a\nb\t\tc  d"` has no three consecutive
blanks, and its cleaned form has no two consecutive spaces. -/
theorem CleanupError_no_double_space_witness :
    ∃ s : String, CleanupError (some (errorsNew 0 "a\nb\t\tc  d")) = .ok s ∧
      ¬ ([' ', ' '] <:+: s.data) :=
  CleanupError_no_double_space (errorsNew 0 "a\nb\t\tc  d") (by decide)

/-! ## Further properties of the classifier and of the conflict policy -/

/-- C12: `NewAcceptableError(s)` has message `s`, its `Acceptable()` is true and
`IsAcceptableError` returns that same error; an error whose dynamic type has
no `Acceptable` method, such as one built with `errors.New`, gives nil. -/
theorem NewAcceptableError_classified (addr : Nat) (s : String) :
    (NewAcceptableError addr s).Error = s ∧
      (NewAcceptableError addr s).Acceptable = some true ∧
      IsAcceptableError (some (NewAcceptableError addr s)) =
        some (NewAcceptableError addr s) ∧
      (∀ e : GoError, e.implementsAcceptable = false → IsAcceptableError (some e) = none) ∧
      (∀ (a : Nat) (msg : String), IsAcceptableError (some (errorsNew a msg)) = none) := by
  refine ⟨rfl, rfl, rfl, ?_, fun _ _ => rfl⟩
  intro e he
  simp [IsAcceptableError, he]

/-- C12, instance: an acceptable error and a plain transport error. -/
theorem NewAcceptableError_classified_witness :
    IsAcceptableError (some (NewAcceptableError 7 "object already exists")) =
        some (NewAcceptableError 7 "object already exists") ∧
      IsAcceptableError (some sampleTransportErr) = none :=
  ⟨(NewAcceptableError_classified 7 "object already exists").2.2.1,
    (NewAcceptableError_classified 7 "object already exists").2.2.2.1 sampleTransportErr rfl⟩

/-- C16, evaluation at the failing input: with `noClobber` set and a source
lookup that fails in transport, `checkConditions` returns that error, not
nil. -/
theorem lookup_failure_is_returned :
    checkConditions sampleStorage "down" "dst" true false false ⟨(), []⟩ =
        (.ok (some sampleTransportErr), ⟨(), ["down"]⟩) ∧
      (checkConditions sampleStorage "down" "dst" true false false ⟨(), []⟩).1 ≠ .ok none := by
  constructor
  · rfl
  · decide

/-- C17, evaluation at the failing input: source not found, destination
present, `ifSizeDiffer` set (and likewise `ifSourceNewer`): `checkConditions`
dereferences the nil source descriptor and panics. -/
theorem checkConditions_nil_source_panics :
    checkConditions sampleStorage "nowhere" "dst" false true false ⟨(), []⟩ =
        (.panic, ⟨(), ["dst", "nowhere"]⟩) ∧
      checkConditions sampleStorage "nowhere" "dst" false false true ⟨(), []⟩ =
        (.panic, ⟨(), ["dst", "nowhere"]⟩) := by
  constructor <;> rfl

/-- C18: `getObject` returns `(nil, nil)` when `Stat` answers
`ErrGivenObjectNotFound`, `(nil, err)` when client construction fails with
`err`, and the pair of `Stat` unchanged otherwise; so `(nil, nil)` comes only
from not found or from `Stat` returning that pair. -/
theorem getObject_outcomes {σ κ : Type} (S : Storage σ κ) (url : ObjectURL) (r : Run σ) :
    (∀ (client : κ) (w1 w2 : σ) (obj : Option Object),
        S.NewClient url r.world = ((client, none), w1) →
        S.Stat client url w1 = ((obj, some S.ErrGivenObjectNotFound), w2) →
        (getObject S url r).1 = (none, none)) ∧
      (∀ (client : κ) (err : GoError) (w1 : σ),
        S.NewClient url r.world = ((client, some err), w1) →
        (getObject S url r).1 = (none, some err)) ∧
      (∀ (client : κ) (w1 w2 : σ) (obj : Option Object) (err : Option GoError),
        S.NewClient url r.world = ((client, none), w1) →
        S.Stat client url w1 = ((obj, err), w2) →
        err ≠ some S.ErrGivenObjectNotFound →
        (getObject S url r).1 = (obj, err)) ∧
      ((getObject S url r).1 = (none, none) →
        (S.NewClient url r.world).1.2 = none ∧
        ((S.Stat (S.NewClient url r.world).1.1 url (S.NewClient url r.world).2).1.2 =
            some S.ErrGivenObjectNotFound ∨
          (S.Stat (S.NewClient url r.world).1.1 url (S.NewClient url r.world).2).1 =
            (none, none))) := by
  refine ⟨?_, ?_, ?_, ?_⟩
  · intro client w1 w2 obj h1 h2
    simp [getObject, h1, h2]
  · intro client err w1 h1
    simp [getObject, h1]
  · intro client w1 w2 obj err h1 h2 hne
    simp [getObject, h1, h2, hne]
  · rcases h1 : S.NewClient url r.world with ⟨⟨client, ce⟩, w1⟩
    rcases h2 : S.Stat client url w1 with ⟨⟨obj, err⟩, w2⟩
    cases ce with
    | some ce => simp [getObject, h1]
    | none =>
      by_cases hnf : err = some S.ErrGivenObjectNotFound
      · intro _
        simp [h2, hnf]
      · intro h
        simp [getObject, h1, h2, hnf] at h
        simp [h2, h.1, h.2]

/-- C18, instance: in the sample storage `"nowhere"` is not found and `"down"`
fails in transport. -/
theorem getObject_outcomes_witness :
    (getObject sampleStorage "nowhere" ⟨(), []⟩).1 = (none, none) ∧
      (getObject sampleStorage "down" ⟨(), []⟩).1 = (none, some sampleTransportErr) :=
  ⟨(getObject_outcomes sampleStorage "nowhere" ⟨(), []⟩).1 () () () none rfl rfl,
    (getObject_outcomes sampleStorage "down" ⟨(), []⟩).2.2.1 () () () none
      (some sampleTransportErr) rfl rfl (by decide)⟩

/-- C19: `isWarning` is true exactly on the three package errors; it is false
on nil and on a different error value carrying the same text. -/
theorem isWarning_iff (err : Option GoError) :
    (isWarning err = true ↔
        (err = some ErrObjectExists ∨ err = some ErrObjectIsNewer ∨
          err = some ErrObjectSizesMatch)) ∧
      isWarning none = false ∧
      (∀ addr : Nat, addr ≠ 1 →
        isWarning (some (errorsNew addr "object already exists")) = false) ∧
      (∀ addr : Nat,
        isWarning (some (NewAcceptableError addr "object already exists")) = false) := by
  refine ⟨?_, by decide, ?_, ?_⟩
  · simp [isWarning]
  · intro addr h
    simp [isWarning, errorsNew, ErrObjectExists, ErrObjectIsNewer, ErrObjectSizesMatch, h]
  · intro addr
    simp [isWarning, NewAcceptableError, ErrObjectExists, ErrObjectIsNewer,
      ErrObjectSizesMatch]

/-- C19, instance: a second allocation with the text of `ErrObjectExists` is
not a warning. -/
theorem isWarning_iff_witness :
    isWarning (some (errorsNew 9 "object already exists")) = false :=
  (isWarning_iff none).2.2.1 9 (by decide)

/-! ## Interleavings of `Run`, `Wait` and `Close` -/

/-- Replacing one element changes a count by the difference of the two
indicator values. -/
theorem countP_set_int {α : Type} (p : α → Bool) :
    ∀ (l : List α) (i : Nat) (a b : α), l[i]? = some a →
      ((l.set i b).countP p : Int) =
        l.countP p - (if p a then 1 else 0) + (if p b then 1 else 0) := by
  intro l
  induction l with
  | nil => intro i a b h; simp at h
  | cons x xs ih =>
    intro i a b h
    cases i with
    | zero =>
      simp at h
      subst h
      simp only [List.set_cons_zero, List.countP_cons]
      push_cast
      ring
    | succ j =>
      simp at h
      have := ih j a b h
      simp only [List.set_cons_succ, List.countP_cons]
      push_cast
      rw [this]
      ring

/-- An element satisfying a predicate is counted. -/
theorem countP_pos_int {α : Type} (p : α → Bool) :
    ∀ (l : List α) (i : Nat) (a : α), l[i]? = some a →
      (if p a then 1 else 0 : Int) ≤ l.countP p := by
  intro l i a h
  have hmem : a ∈ l := List.getElem?_mem h
  by_cases hpa : p a = true
  · have := List.countP_pos_iff.mpr ⟨a, hmem, hpa⟩
    simp only [hpa, if_true]
    omega
  · simp only [hpa]
    simp

/-- No goroutine steps once the program has panicked. -/
theorem step_not_panicked (s s1 : Sys) (i : Nat) (h : step s i = some s1) :
    s.panicked = false := by
  by_contra hc
  simp [step, hc] at h

/-- A step keeps the counters in agreement with the goroutines. -/
theorem step_balanced (s s1 : Sys) (i : Nat) (hb : Balanced s) (h : step s i = some s1) :
    Balanced s1 := by
  obtain ⟨h1, h2, h3, h4⟩ := hb
  have hp := step_not_panicked s s1 i h
  rcases hget : s.threads[i]? with _ | t
  · simp [step, hp, hget] at h
  · have cs := fun (p : Thread → Bool) (b : Thread) => countP_set_int p s.threads i t b hget
    have hs := countP_pos_int Thread.holdsSlot s.threads i t hget
    unfold Balanced
    rcases t with ⟨pc, calls⟩ | ⟨pc, fn⟩
    · rcases calls with _ | ⟨c, rest⟩
      · simp [step, hp, hget] at h
      · cases c <;> cases pc <;> simp [step, hp, hget] at h <;> (try split_ifs at h) <;>
          (try simp at h) <;> (first | (have h' := h.2; subst h') | subst h) <;>
          refine ⟨?_, ?_, ?_, ?_⟩ <;>
          (try simp only [cs, List.countP_append, Nat.cast_add, List.countP_cons,
            List.countP_nil, Thread.holdsSlot, Thread.tracked, Thread.counted]) <;>
          (try simp) <;> omega
    · cases pc <;> (try cases fn) <;> simp [step, hp, hget] at h <;>
          simp only [Thread.holdsSlot, if_true] at hs <;> (try split_ifs at h) <;>
          (try simp at h) <;> subst h <;>
          refine ⟨?_, ?_, ?_, ?_⟩ <;>
          (try simp only [cs, List.countP_append, Nat.cast_add, List.countP_cons,
            List.countP_nil, Thread.holdsSlot, Thread.tracked, Thread.counted]) <;>
          (try simp) <;> omega

/-- The empty schedule and the schedules made of enabled steps keep the
counters in agreement with the goroutines. -/
theorem runSchedule_balanced (sched : List Nat) :
    ∀ (s s1 : Sys), Balanced s → runSchedule s sched = some s1 → Balanced s1 := by
  induction sched with
  | nil =>
    intro s s1 hb h
    simp only [runSchedule, Option.some.injEq] at h
    subst h
    exact hb
  | cons i rest ih =>
    intro s s1 hb h
    simp only [runSchedule] at h
    split at h
    · cases h
    · rename_i s2 hstep
      exact ih s2 s1 (step_balanced s s2 i hb hstep) h

/-- A step does not change the capacity of the semaphore. -/
theorem step_cap (s s1 : Sys) (i : Nat) (h : step s i = some s1) :
    s1.p.semaphore.cap = s.p.semaphore.cap := by
  have hp := step_not_panicked s s1 i h
  rcases hget : s.threads[i]? with _ | t
  · simp [step, hp, hget] at h
  · rcases t with ⟨pc, calls⟩ | ⟨pc, fn⟩
    · rcases calls with _ | ⟨c, rest⟩
      · simp [step, hp, hget] at h
      · cases c <;> cases pc <;> simp [step, hp, hget] at h <;> (try split_ifs at h) <;>
          (try simp at h) <;> (first | (have h' := h.2; subst h') | subst h) <;> rfl
    · cases pc <;> (try cases fn) <;> simp [step, hp, hget] at h <;> (try split_ifs at h) <;>
          (try simp at h) <;> subst h <;> rfl

/-- A schedule does not change the capacity of the semaphore. -/
theorem runSchedule_cap (sched : List Nat) :
    ∀ (s s1 : Sys), runSchedule s sched = some s1 →
      s1.p.semaphore.cap = s.p.semaphore.cap := by
  induction sched with
  | nil =>
    intro s s1 h
    simp only [runSchedule, Option.some.injEq] at h
    subst h
    rfl
  | cons i rest ih =>
    intro s s1 h
    simp only [runSchedule] at h
    split at h
    · cases h
    · rename_i s2 hstep
      rw [ih s2 s1 h, step_cap s s2 i hstep]

/-- Client goroutines at the entry of their programs are counted by no
predicate that is false on every such goroutine. -/
theorem countP_callers_entry (p : Thread → Bool)
    (hp : ∀ calls, p (Thread.caller .entry calls) = false) (progs : List (List Call)) :
    (progs.map (Thread.caller .entry)).countP p = 0 := by
  induction progs with
  | nil => rfl
  | cons c cs ih => simp [List.countP_cons, hp, ih]

/-- The initial state is balanced when the manager is fresh with a
non-negative capacity. -/
theorem start_balanced (W : Int) (hW : 0 ≤ W) (progs : List (List Call)) (d : Bool) :
    Balanced (start (freshManager W) progs d) := by
  have h1 := countP_callers_entry Thread.holdsSlot (fun _ => rfl) progs
  have h2 := countP_callers_entry Thread.tracked (fun _ => rfl) progs
  have h3 := countP_callers_entry Thread.counted (fun _ => rfl) progs
  refine ⟨?_, ?_, ?_, ?_⟩ <;> simp [start, freshManager, NewWaiter, h1, h2, h3, hW]

/-- A manager returned by `New` is fresh and has capacity at least 2. -/
theorem New_ok_fresh (w : Nat) (limit H V : Int) (m : Manager)
    (h : New w limit H V = .ok m) : ∃ W : Int, 2 ≤ W ∧ m = freshManager W := by
  have hnew : New w limit H V = managerOfCap limit
      (if (if V < 0 then wrapInt w (H * wrapInt w (-V)) else V) < 2 then 2
        else (if V < 0 then wrapInt w (H * wrapInt w (-V)) else V)) := rfl
  rw [hnew] at h
  generalize (if V < 0 then wrapInt w (H * wrapInt w (-V)) else V) = r at h
  refine ⟨if r < 2 then 2 else r, by split <;> omega, ?_⟩
  generalize (if r < 2 then (2 : Int) else r) = x at h
  by_cases hc : x < 0 ∨ limit < x
  · simp [managerOfCap, makeChan, hc] at h
  · simp only [managerOfCap, makeChan, hc, if_false] at h
    cases h
    rfl

/-- A task in flight holds a slot. -/
theorem inFlight_holdsSlot (t : Thread) (h : t.inFlight = true) : t.holdsSlot = true := by
  unfold Thread.inFlight at h
  split at h <;> first | rfl | cases h

/-- C13: for a manager created by `New` and every interleaving of client
calls and task steps, the tasks that have passed `acquire` and not finished
`release` never outnumber the capacity, which is at least 2; in particular no
more task bodies than that are executing. -/
theorem inFlight_le_capacity (w : Nat) (limit H V : Int) (m : Manager)
    (hm : New w limit H V = .ok m) (progs : List (List Call)) (draining : Bool)
    (sched : List Nat) (s : Sys)
    (hrun : runSchedule (start m progs draining) sched = some s) :
    2 ≤ m.semaphore.cap ∧ s.p.semaphore.cap = m.semaphore.cap ∧
      (s.threads.countP Thread.inFlight : Int) ≤ m.semaphore.cap ∧
      (s.threads.countP Thread.inBody : Int) ≤ m.semaphore.cap := by
  obtain ⟨W, hW, rfl⟩ := New_ok_fresh w limit H V m hm
  have hb := runSchedule_balanced sched _ s (start_balanced W (by omega) progs draining) hrun
  have hcap := runSchedule_cap sched _ s hrun
  obtain ⟨h1, h2, _, _⟩ := hb
  have hcap2 : s.p.semaphore.cap = W := hcap
  have hle : s.threads.countP Thread.inFlight ≤ s.threads.countP Thread.holdsSlot :=
    List.countP_mono_left (fun t _ ht => inFlight_holdsSlot t ht)
  have hle2 : s.threads.countP Thread.inBody ≤ s.threads.countP Thread.inFlight :=
    List.countP_mono_left (fun t _ ht => by
      unfold Thread.inBody at ht
      split at ht
      · rfl
      · cases ht)
  refine ⟨hW, hcap2, ?_, ?_⟩
  · show (s.threads.countP Thread.inFlight : Int) ≤ W
    omega
  · show (s.threads.countP Thread.inBody : Int) ≤ W
    omega

/-- C13, instance: capacity 2, three tasks submitted by one client; after the
first two are in flight the count is 2. -/
theorem inFlight_le_capacity_witness :
    (2 : Int) ≤ 2 ∧
      (freshManager 2).semaphore.cap = (freshManager 2).semaphore.cap ∧
      (([Thread.caller .acquireSend [Call.Run none, Call.Wait],
          Thread.worker .call none, Thread.worker .call (some sampleTransportErr)].countP
            Thread.inFlight : Nat) : Int) ≤ 2 ∧
      (([Thread.caller .acquireSend [Call.Run none, Call.Wait],
          Thread.worker .call none, Thread.worker .call (some sampleTransportErr)].countP
            Thread.inBody : Nat) : Int) ≤ 2 :=
  inFlight_le_capacity 64 (2 ^ 48) 4 2 (freshManager 2) (by decide)
    [[Call.Run none, Call.Run (some sampleTransportErr), Call.Run none, Call.Wait]] true
    [0, 0, 0, 0, 0, 0, 0, 0, 0]
    { p := { wg := 2, semaphore := { cap := 2, len := 2, closed := false } },
      waiter := { wg := 3, errch := { cap := 0, len := 0, closed := false } },
      threads := [Thread.caller .acquireSend [Call.Run none, Call.Wait],
        Thread.worker .call none, Thread.worker .call (some sampleTransportErr)],
      draining := true, received := [], panicked := false }
    (by decide)

/-! ## The batch usage: `Run` for every task, then `Wait` -/

/-- Replacing an element by one with the same image leaves the mapped list
unchanged. -/
theorem map_set_same {α β : Type} (f : α → β) :
    ∀ (l : List α) (i : Nat) (a b : α), l[i]? = some a → f b = f a →
      (l.set i b).map f = l.map f := by
  intro l
  induction l with
  | nil => intro i a b h; simp at h
  | cons x xs ih =>
    intro i a b h hf
    cases i with
    | zero =>
      simp at h
      subst h
      simp [hf]
    | succ j =>
      simp at h
      simp [ih j a b h hf]

/-- Replacing an element by one with the same optional image leaves the
filtered list unchanged. -/
theorem filterMap_set_same {α β : Type} (f : α → Option β) :
    ∀ (l : List α) (i : Nat) (a b : α), l[i]? = some a → f b = f a →
      (l.set i b).filterMap f = l.filterMap f := by
  intro l
  induction l with
  | nil => intro i a b h; simp at h
  | cons x xs ih =>
    intro i a b h hf
    cases i with
    | zero =>
      simp at h
      subst h
      simp [List.filterMap_cons, hf]
    | succ j =>
      simp at h
      simp [List.filterMap_cons, ih j a b h hf]

/-- Replacing an element without image by one with image `e` adds `e` to the
filtered list, up to order. -/
theorem filterMap_set_new {α β : Type} (f : α → Option β) :
    ∀ (l : List α) (i : Nat) (a b : α) (e : β), l[i]? = some a → f a = none →
      f b = some e → ((l.set i b).filterMap f).Perm (l.filterMap f ++ [e]) := by
  intro l
  induction l with
  | nil => intro i a b e h; simp at h
  | cons x xs ih =>
    intro i a b e h ha hb
    cases i with
    | zero =>
      simp at h
      subst h
      simp only [List.set_cons_zero, List.filterMap_cons, ha, hb]
      exact (List.perm_append_singleton e _).symm
    | succ j =>
      simp at h
      have := ih j a b e h ha hb
      simp only [List.set_cons_succ, List.filterMap_cons]
      cases f x with
      | none => exact this
      | some y => exact this.cons y

/-- A step of the batch usage keeps the batch invariant. -/
theorem step_batchInv (tasks : List Task) (s s1 : Sys) (i : Nat)
    (hinv : BatchInv tasks s) (h : step s i = some s1) : BatchInv tasks s1 := by
  obtain ⟨hb, hpan, hsem, hdr, pc, calls, ws, rem, hth, hws, htasks, hrecv, hprog⟩ := hinv
  have hb1 := step_balanced s s1 i hb h
  obtain ⟨b1, b2, b3, b4⟩ := hb
  refine ⟨hb1, ?_⟩
  cases i with
  | zero =>
    have hget : s.threads[0]? = some (Thread.caller pc calls) := by simp [hth]
    rcases hprog with ⟨hcalls, hclosed, hpc1, hpc2⟩ | ⟨hcalls, hrem, hclosed, hwg, hpc⟩
    · cases rem with
      | nil =>
        simp only [List.map_nil, List.nil_append] at hcalls
        subst hcalls
        rcases hpc2 rfl with hpc | ⟨hpc, hwg⟩
        · subst hpc
          simp [step, hpan, hget] at h
          obtain ⟨hw0, rfl⟩ := h
          refine ⟨rfl, hsem, hdr, .closeCh, [Call.Wait], ws, [], ?_, hws, htasks, hrecv,
            Or.inl ⟨rfl, hclosed, by simp, fun _ => Or.inr ⟨rfl, hw0⟩⟩⟩
          simp [hth]
        · subst hpc
          simp [step, hpan, hget, hclosed] at h
          subst h
          refine ⟨rfl, hsem, hdr, .entry, [], ws, [], ?_, hws, htasks, hrecv,
            Or.inr ⟨rfl, rfl, rfl, hwg, rfl⟩⟩
          simp [hth]
      | cons fn rest =>
        simp only [List.map_cons, List.cons_append] at hcalls
        subst hcalls
        have hpcne := hpc1 (by simp)
        cases pc with
        | entry =>
          simp [step, hpan, hget] at h
          subst h
          refine ⟨rfl, hsem, hdr, .acquireSend, _, ws, fn :: rest, ?_, hws, htasks, hrecv,
            Or.inl ⟨rfl, hclosed, by simp, by simp⟩⟩
          simp [hth]
        | acquireSend =>
          simp [step, hpan, hget, hsem] at h
          obtain ⟨_, rfl⟩ := h
          refine ⟨rfl, rfl, hdr, .acquireAdd, _, ws, fn :: rest, ?_, hws, htasks, hrecv,
            Or.inl ⟨rfl, hclosed, by simp, by simp⟩⟩
          simp [hth]
        | acquireAdd =>
          simp [step, hpan, hget] at h
          subst h
          refine ⟨rfl, hsem, hdr, .spawn, _, ws, fn :: rest, ?_, hws, htasks, hrecv,
            Or.inl ⟨rfl, hclosed, by simp, by simp⟩⟩
          simp [hth]
        | spawn =>
          simp [step, hpan, hget] at h
          subst h
          refine ⟨rfl, hsem, hdr, .entry, _, ws ++ [Thread.worker .call fn], rest, ?_, ?_, ?_,
            ?_, Or.inl ⟨rfl, hclosed, by simp, fun _ => Or.inl rfl⟩⟩
          · simp [hth]
          · intro t ht
            rcases List.mem_append.mp ht with ht | ht
            · exact hws t ht
            · simp only [List.mem_singleton] at ht
              exact ⟨.call, fn, ht, fun e he => by cases he⟩
          · rw [← htasks]
            simp [Thread.fn]
          · simpa [List.filterMap_append, Thread.delivered] using hrecv
        | closeCh => exact absurd rfl hpcne
    · subst hcalls
      simp [step, hpan, hget] at h
  | succ j =>
    have hget : s.threads[j + 1]? = ws[j]? := by simp [hth]
    rcases hw : ws[j]? with _ | t
    · simp [step, hpan, hget, hw] at h
    · obtain ⟨wpc, fn, rfl, herr⟩ := hws t (List.getElem?_mem hw)
      have hget1 : s.threads[j + 1]? = some (Thread.worker wpc fn) := by rw [hget, hw]
      have hT := countP_pos_int Thread.tracked s.threads (j + 1) _ hget1
      have hC := countP_pos_int Thread.counted s.threads (j + 1) _ hget1
      have hS := countP_pos_int Thread.holdsSlot s.threads (j + 1) _ hget1
      have hthreads : ∀ t1, s.threads.set (j + 1) t1 = Thread.caller pc calls :: ws.set j t1 := by
        intro t1
        simp [hth]
      have hws1 : ∀ wpc1, (∀ e, wpc1 = WorkerPc.errSend e → fn = some e) →
          ∀ t ∈ ws.set j (Thread.worker wpc1 fn), ∃ wpc2 fn2, t = Thread.worker wpc2 fn2 ∧
            ∀ e, wpc2 = WorkerPc.errSend e → fn2 = some e := by
        intro wpc1 h1 t ht
        rcases List.mem_or_eq_of_mem_set ht with ht | ht
        · exact hws t ht
        · exact ⟨wpc1, fn, ht, h1⟩
      have htasks1 : ∀ wpc1, (ws.set j (Thread.worker wpc1 fn)).map Thread.fn ++ rem = tasks := by
        intro wpc1
        rw [map_set_same Thread.fn ws j (Thread.worker wpc fn) (Thread.worker wpc1 fn) hw rfl]
        exact htasks
      have hrecv1 : ∀ wpc1, Thread.delivered (Thread.worker wpc1 fn) =
          Thread.delivered (Thread.worker wpc fn) →
          s.received.Perm ((ws.set j (Thread.worker wpc1 fn)).filterMap Thread.delivered) := by
        intro wpc1 h1
        rw [filterMap_set_same Thread.delivered ws j (Thread.worker wpc fn) (Thread.worker wpc1 fn) hw h1]
        exact hrecv
      have hopen : Thread.tracked (Thread.worker wpc fn) = true →
          s.waiter.errch.closed = false ∧
            ((calls = rem.map Call.Run ++ [Call.Wait] ∧
                (rem ≠ [] → pc ≠ CallerPc.closeCh) ∧ (rem = [] → pc = CallerPc.entry))) := by
        intro htr
        rw [htr] at hT
        simp only [if_true] at hT
        rcases hprog with ⟨hcalls, hclosed, hpc1, hpc2⟩ | ⟨_, _, _, hwg, _⟩
        · refine ⟨hclosed, hcalls, hpc1, fun hr => ?_⟩
          rcases hpc2 hr with hpc | ⟨_, hwg⟩
          · exact hpc
          · omega
        · omega
      cases wpc with
      | call =>
        obtain ⟨hclosed, hcalls, hpc1, hpc2⟩ := hopen rfl
        cases fn with
        | none =>
          simp [step, hpan, hget1] at h
          subst h
          exact ⟨rfl, hsem, hdr, pc, calls, _, rem, hthreads _,
            hws1 .release (fun e he => by cases he), htasks1 .release, hrecv1 .release rfl,
            Or.inl ⟨hcalls, hclosed, hpc1, fun hr => Or.inl (hpc2 hr)⟩⟩
        | some e =>
          simp [step, hpan, hget1] at h
          subst h
          exact ⟨rfl, hsem, hdr, pc, calls, _, rem, hthreads _,
            hws1 (.errSend e) (fun e1 he => by cases he; rfl), htasks1 (.errSend e),
            hrecv1 (.errSend e) rfl,
            Or.inl ⟨hcalls, hclosed, hpc1, fun hr => Or.inl (hpc2 hr)⟩⟩
      | errSend e =>
        obtain ⟨hclosed, hcalls, hpc1, hpc2⟩ := hopen rfl
        have hfn := herr e rfl
        subst hfn
        simp [step, hpan, hget1, hclosed, hdr] at h
        subst h
        refine ⟨rfl, hsem, rfl, pc, calls, _, rem, hthreads _,
          hws1 .release (fun e he => by cases he), htasks1 .release, ?_,
          Or.inl ⟨hcalls, hclosed, hpc1, fun hr => Or.inl (hpc2 hr)⟩⟩
        exact (hrecv.append_right [e]).trans
          (filterMap_set_new Thread.delivered ws j _ (Thread.worker .release (some e)) e hw rfl rfl).symm
      | release =>
        obtain ⟨hclosed, hcalls, hpc1, hpc2⟩ := hopen rfl
        have hwgpos : ¬ s.p.wg ≤ 0 := by
          simp only [Thread.counted, if_true] at hC
          omega
        simp [step, hpan, hget1, hwgpos] at h
        subst h
        exact ⟨rfl, hsem, hdr, pc, calls, _, rem, hthreads _,
          hws1 .semRecv (fun e he => by cases he), htasks1 .semRecv, hrecv1 .semRecv rfl,
          Or.inl ⟨hcalls, hclosed, hpc1, fun hr => Or.inl (hpc2 hr)⟩⟩
      | semRecv =>
        obtain ⟨hclosed, hcalls, hpc1, hpc2⟩ := hopen rfl
        have hlen : 0 < s.p.semaphore.len := by
          simp only [Thread.holdsSlot, if_true] at hS
          omega
        simp [step, hpan, hget1, hlen] at h
        subst h
        exact ⟨rfl, hsem, hdr, pc, calls, _, rem, hthreads _,
          hws1 .waiterDone (fun e he => by cases he), htasks1 .waiterDone,
          hrecv1 .waiterDone rfl,
          Or.inl ⟨hcalls, hclosed, hpc1, fun hr => Or.inl (hpc2 hr)⟩⟩
      | waiterDone =>
        obtain ⟨hclosed, hcalls, hpc1, hpc2⟩ := hopen rfl
        have hwgpos : ¬ s.waiter.wg ≤ 0 := by
          simp only [Thread.tracked, if_true] at hT
          omega
        simp [step, hpan, hget1, hwgpos] at h
        subst h
        exact ⟨rfl, hsem, hdr, pc, calls, _, rem, hthreads _,
          hws1 .exited (fun e he => by cases he), htasks1 .exited, hrecv1 .exited rfl,
          Or.inl ⟨hcalls, hclosed, hpc1, fun hr => Or.inl (hpc2 hr)⟩⟩
      | exited =>
        simp [step, hpan, hget1] at h

/-- The batch invariant holds initially. -/
theorem batch_init (W : Int) (hW : 1 ≤ W) (tasks : List Task) :
    BatchInv tasks (batch W tasks) := by
  refine ⟨start_balanced W (by omega) _ true, rfl, rfl, rfl, .entry,
    tasks.map Call.Run ++ [Call.Wait], [], tasks, rfl, ?_, rfl, ?_, ?_⟩
  · intro t ht
    cases ht
  · exact List.Perm.refl _
  · exact Or.inl ⟨rfl, rfl, fun _ h => (by cases h), fun _ => Or.inl rfl⟩

/-- Every interleaving of the batch usage keeps the batch invariant. -/
theorem runSchedule_batchInv (tasks : List Task) (sched : List Nat) :
    ∀ (s s1 : Sys), BatchInv tasks s → runSchedule s sched = some s1 → BatchInv tasks s1 := by
  induction sched with
  | nil =>
    intro s s1 hb h
    simp only [runSchedule, Option.some.injEq] at h
    subst h
    exact hb
  | cons i rest ih =>
    intro s s1 hb h
    simp only [runSchedule] at h
    split at h
    · cases h
    · rename_i s2 hstep
      exact ih s2 s1 (step_batchInv tasks s s2 i hb hstep) h

/-- When the waiter's counter is zero in the batch usage, and no task remains
to be submitted, every task has its worker and every worker has exited; the
consumer then holds exactly the errors the tasks returned. -/
theorem batch_idle (tasks : List Task) (s : Sys) (pc : CallerPc) (calls : List Call)
    (ws : List Thread)
    (hb : Balanced s) (hth : s.threads = Thread.caller pc calls :: ws)
    (hcaller : (Thread.caller pc calls).tracked = false)
    (hws : ∀ t ∈ ws, ∃ wpc fn, t = Thread.worker wpc fn ∧
      ∀ e, wpc = WorkerPc.errSend e → fn = some e)
    (htasks : ws.map Thread.fn = tasks)
    (hrecv : s.received.Perm (ws.filterMap Thread.delivered))
    (hwg : s.waiter.wg = 0) :
    ws = tasks.map (Thread.worker .exited) ∧ s.received.Perm (tasks.filterMap id) := by
  obtain ⟨_, _, b3, _⟩ := hb
  rw [hth, List.countP_cons, hcaller] at b3
  have hz : ws.countP Thread.tracked = 0 := by
    simp only [Bool.false_eq_true, if_false, Nat.add_zero] at b3
    omega
  have hex : ∀ t ∈ ws, t = Thread.worker .exited t.fn := by
    intro t ht
    obtain ⟨wpc, fn, rfl, _⟩ := hws t ht
    have hnt := (List.countP_eq_zero.mp hz) _ ht
    cases wpc <;> first | rfl | (exact absurd rfl hnt)
  have hws_eq : ws = tasks.map (Thread.worker .exited) := by
    rw [← htasks, List.map_map]
    conv_lhs => rw [← List.map_id ws]
    exact List.map_congr_left (fun t ht => hex t ht)
  refine ⟨hws_eq, ?_⟩
  have hfm : ws.filterMap Thread.delivered = tasks.filterMap id := by
    rw [hws_eq, List.filterMap_map]
    rfl
  rw [← hfm]
  exact hrecv

/-- A counted element can be fetched by index. -/
theorem exists_index_of_countP_pos {α : Type} (p : α → Bool) (l : List α)
    (h : 0 < l.countP p) : ∃ (j : Nat) (a : α), l[j]? = some a ∧ p a = true := by
  obtain ⟨a, hmem, hpa⟩ := List.countP_pos_iff.mp h
  obtain ⟨j, hj⟩ := List.getElem?_of_mem hmem
  exact ⟨j, a, hj, hpa⟩

/-- In the batch usage a worker that has not exited can always take its next
step while the error channel is open. -/
theorem batch_worker_enabled (s : Sys) (j : Nat) (wpc : WorkerPc) (fn : Task)
    (hb : Balanced s) (hpan : s.panicked = false) (hdr : s.draining = true)
    (hclosed : s.waiter.errch.closed = false)
    (hget : s.threads[j]? = some (Thread.worker wpc fn))
    (hne : wpc ≠ WorkerPc.exited) : (step s j).isSome = true := by
  obtain ⟨b1, _, _, _⟩ := hb
  have hS := countP_pos_int Thread.holdsSlot s.threads j _ hget
  cases wpc with
  | call => cases fn <;> simp [step, hpan, hget]
  | errSend e => simp [step, hpan, hget, hclosed, hdr]
  | release =>
    by_cases hwg : s.p.wg ≤ 0 <;> simp [step, hpan, hget, hwg]
  | semRecv =>
    have hlen : 0 < s.p.semaphore.len := by
      simp only [Thread.holdsSlot, if_true] at hS
      omega
    simp [step, hpan, hget, hlen]
  | waiterDone =>
    by_cases hwg : s.waiter.wg ≤ 0 <;> simp [step, hpan, hget, hwg]
  | exited => exact absurd rfl hne

/-- The batch usage does not deadlock: until `Wait` has closed the error
channel some goroutine can step, provided the semaphore has a slot. -/
theorem batch_progress (tasks : List Task) (s : Sys) (hinv : BatchInv tasks s)
    (hcap : 1 ≤ s.p.semaphore.cap) :
    s.waiter.errch.closed = true ∨ ∃ i, (step s i).isSome = true := by
  obtain ⟨hb, hpan, hsem, hdr, pc, calls, ws, rem, hth, hws, htasks, hrecv, hprog⟩ := hinv
  have hbal := hb
  obtain ⟨b1, b2, b3, b4⟩ := hb
  have hget : s.threads[0]? = some (Thread.caller pc calls) := by simp [hth]
  have hworker : ∀ (p : Thread → Bool), p (Thread.caller pc calls) = false →
      (∀ fn, p (Thread.worker .exited fn) = false) →
      0 < s.threads.countP p → s.waiter.errch.closed = false →
      ∃ i, (step s i).isSome = true := by
    intro p hpc hpe hpos hclosed
    rw [hth, List.countP_cons, hpc] at hpos
    simp only [Bool.false_eq_true, if_false, Nat.add_zero] at hpos
    obtain ⟨j, t, hj, hpt⟩ := exists_index_of_countP_pos p ws hpos
    obtain ⟨wpc, fn, rfl, _⟩ := hws t (List.getElem?_mem hj)
    have hget1 : s.threads[j + 1]? = some (Thread.worker wpc fn) := by simp [hth, hj]
    refine ⟨j + 1, batch_worker_enabled s (j + 1) wpc fn hbal hpan hdr hclosed hget1 ?_⟩
    intro hex
    subst hex
    rw [hpe fn] at hpt
    cases hpt
  rcases hprog with ⟨hcalls, hclosed, hpc1, hpc2⟩ | ⟨_, _, hclosed, _, _⟩
  · right
    cases rem with
    | nil =>
      simp only [List.map_nil, List.nil_append] at hcalls
      subst hcalls
      rcases hpc2 rfl with hpc | ⟨hpc, hwg⟩
      · subst hpc
        by_cases hwg : s.waiter.wg = 0
        · exact ⟨0, by simp [step, hpan, hget, hwg]⟩
        · exact hworker Thread.tracked rfl (fun _ => rfl) (by omega) hclosed
      · subst hpc
        exact ⟨0, by simp [step, hpan, hget, hclosed]⟩
    | cons fn rest =>
      simp only [List.map_cons, List.cons_append] at hcalls
      subst hcalls
      have hpcne := hpc1 (by simp)
      cases pc with
      | entry => exact ⟨0, by simp [step, hpan, hget]⟩
      | acquireSend =>
        by_cases hlen : (s.p.semaphore.len : Int) < s.p.semaphore.cap
        · exact ⟨0, by simp [step, hpan, hget, hsem, hlen]⟩
        · exact hworker Thread.holdsSlot rfl (fun _ => rfl) (by omega) hclosed
      | acquireAdd => exact ⟨0, by simp [step, hpan, hget]⟩
      | spawn => exact ⟨0, by simp [step, hpan, hget]⟩
      | closeCh => exact absurd rfl hpcne
  · exact Or.inl hclosed

/-- Replacing one element changes a sum by the difference of the two
summands. -/
theorem sum_map_set_nat {α : Type} (f : α → Nat) :
    ∀ (l : List α) (i : Nat) (a b : α), l[i]? = some a →
      ((l.set i b).map f).sum = (l.map f).sum + f b - f a ∧ f a ≤ (l.map f).sum := by
  intro l
  induction l with
  | nil => intro i a b h; simp at h
  | cons x xs ih =>
    intro i a b h
    cases i with
    | zero =>
      simp at h
      subst h
      simp only [List.set_cons_zero, List.map_cons, List.sum_cons]
      omega
    | succ j =>
      simp at h
      obtain ⟨h1, h2⟩ := ih j a b h
      simp only [List.set_cons_succ, List.map_cons, List.sum_cons]
      omega

/-- Every step that does not panic uses one unit of fuel. -/
theorem step_fuel (s s1 : Sys) (i : Nat) (h : step s i = some s1)
    (hnp : s1.panicked = false) : s1.fuel + 1 = s.fuel := by
  have hp := step_not_panicked s s1 i h
  rcases hget : s.threads[i]? with _ | t
  · simp [step, hp, hget] at h
  · have cs := fun (b : Thread) => (sum_map_set_nat Thread.fuel s.threads i t b hget).1
    have hle := (sum_map_set_nat Thread.fuel s.threads i t t hget).2
    unfold Sys.fuel
    rcases t with ⟨pc, calls⟩ | ⟨pc, fn⟩
    · rcases calls with _ | ⟨c, rest⟩
      · simp [step, hp, hget] at h
      · cases c <;> cases pc <;> simp [step, hp, hget] at h <;> (try split_ifs at h) <;>
          (try simp at h) <;> (first | (have h' := h.2; subst h') | subst h) <;>
          (try (simp at hnp; done)) <;>
          simp only [cs, List.map_append, List.sum_append, List.map_cons, List.map_nil,
            List.sum_cons, List.sum_nil, Thread.fuel, Call.cost, CallerPc.done, workerSteps]
            at hle ⊢ <;>
          omega
    · cases pc <;> (try cases fn) <;> simp [step, hp, hget] at h <;> (try split_ifs at h) <;>
          (try simp at h) <;> subst h <;>
          (try (simp at hnp; done)) <;>
          simp only [cs, List.map_append, List.sum_append, List.map_cons, List.map_nil,
            List.sum_cons, List.sum_nil, Thread.fuel, Call.cost, CallerPc.done, workerSteps]
            at hle ⊢ <;>
          omega

/-- An interleaving that ends without panic has used as much fuel as it has
steps. -/
theorem runSchedule_fuel (sched : List Nat) :
    ∀ (s s1 : Sys), runSchedule s sched = some s1 → s1.panicked = false →
      s1.fuel + sched.length = s.fuel := by
  induction sched with
  | nil =>
    intro s s1 h _
    simp only [runSchedule, Option.some.injEq] at h
    subst h
    rfl
  | cons i rest ih =>
    intro s s1 h hnp
    simp only [runSchedule] at h
    split at h
    · cases h
    · rename_i s2 hstep
      have hnp2 : s2.panicked = false := by
        cases rest with
        | nil =>
          simp only [runSchedule, Option.some.injEq] at h
          subst h
          exact hnp
        | cons k rest2 =>
          simp only [runSchedule] at h
          split at h
          · cases h
          · rename_i s3 hstep3
            exact step_not_panicked s2 s3 k hstep3
      have h1 := ih s2 s1 h hnp
      have h2 := step_fuel s s2 i hstep hnp2
      simp only [List.length_cons]
      omega

/-- The batch usage needs at most nine steps per task and two for `Wait`. -/
theorem batch_fuel_le (W : Int) (tasks : List Task) :
    (batch W tasks).fuel ≤ 9 * tasks.length + 2 := by
  have hsum : ∀ ts : List Task,
      ((ts.map Call.Run ++ [Call.Wait]).map Call.cost).sum ≤ 9 * ts.length + 2 := by
    intro ts
    induction ts with
    | nil => simp [Call.cost]
    | cons fn rest ih =>
      cases fn <;>
        simp only [List.map_cons, List.cons_append, List.sum_cons, Call.cost, workerSteps,
          List.length_cons] at ih ⊢ <;> omega
  have := hsum tasks
  simp only [batch, start, Sys.fuel, List.map_cons, List.map_nil, List.sum_cons, List.sum_nil,
    Thread.fuel, CallerPc.done]
  omega

/-- The defined elements of a list of options are as many as its `some`
entries. -/
theorem filterMap_id_length {α : Type} (ts : List (Option α)) :
    (ts.filterMap id).length = ts.countP Option.isSome := by
  induction ts with
  | nil => rfl
  | cons fn rest ih => cases fn <;> simp [List.filterMap_cons, List.countP_cons, ih]

/-- C14: in every interleaving of the batch usage (one client submits `N`
tasks with `Run` and then calls `Wait`, a consumer drains `Err()`): once
`wg.Wait()` has returned inside `Wait`, and so once the error channel is
closed, each of the `N` tasks has a goroutine that has exited, and the values
received are, up to order, exactly the non-nil errors the tasks returned, `k`
of them; `Wait` does return, since some goroutine can step until the channel
is closed and an interleaving has at most `9 * N + 2` steps. -/
theorem batch_wait_collects_errors (W : Int) (hW : 1 ≤ W) (tasks : List Task)
    (sched : List Nat) (s : Sys) (hrun : runSchedule (batch W tasks) sched = some s) :
    s.panicked = false ∧
      (s.threads.head? = some (Thread.caller .closeCh [Call.Wait]) →
        s.threads.tail = tasks.map (Thread.worker .exited) ∧
        s.received.Perm (tasks.filterMap id)) ∧
      (s.waiter.errch.closed = true →
        s.threads = Thread.caller .entry [] :: tasks.map (Thread.worker .exited) ∧
        s.received.Perm (tasks.filterMap id) ∧
        s.received.length = tasks.countP Option.isSome) ∧
      (s.waiter.errch.closed = true ∨ ∃ i, (step s i).isSome = true) ∧
      sched.length ≤ 9 * tasks.length + 2 := by
  have hinv := runSchedule_batchInv tasks sched _ s (batch_init W hW tasks) hrun
  have hcap : s.p.semaphore.cap = W := runSchedule_cap sched _ s hrun
  have hprog := batch_progress tasks s hinv (by omega)
  obtain ⟨hb, hpan, hsem, hdr, pc, calls, ws, rem, hth, hws, htasks, hrecv, hcase⟩ := hinv
  have hfuel := runSchedule_fuel sched _ s hrun hpan
  have hbound := batch_fuel_le W tasks
  refine ⟨hpan, ?_, ?_, hprog, by omega⟩
  · intro hhead
    rw [hth] at hhead
    simp only [List.head?_cons, Option.some.injEq, Thread.caller.injEq] at hhead
    obtain ⟨hpc, hcalls⟩ := hhead
    subst hpc
    subst hcalls
    rcases hcase with ⟨hc, _, hpc1, hpc2⟩ | ⟨hc, _, _, _, _⟩
    · have hrem : rem = [] := by
        cases rem with
        | nil => rfl
        | cons fn rest => exact absurd rfl (hpc1 (by simp))
      subst hrem
      rcases hpc2 rfl with hpc | ⟨_, hwg⟩
      · cases hpc
      · rw [List.append_nil] at htasks
        have := batch_idle tasks s _ _ ws hb hth rfl hws htasks hrecv hwg
        rw [hth]
        exact this
    · cases hc
  · intro hclosed
    rcases hcase with ⟨_, hopen, _, _⟩ | ⟨hc, hrem, _, hwg, hpc⟩
    · rw [hopen] at hclosed
      cases hclosed
    · subst hc
      subst hrem
      subst hpc
      rw [List.append_nil] at htasks
      obtain ⟨h1, h2⟩ := batch_idle tasks s _ _ ws hb hth rfl hws htasks hrecv hwg
      refine ⟨by rw [hth, h1], h2, ?_⟩
      rw [h2.length_eq]
      exact filterMap_id_length tasks

/-- C14, instance: two tasks, the second failing, run to completion with
capacity 2; the consumer has received the one error. -/
theorem batch_wait_collects_errors_witness :
    (({ p := freshManager 2,
        waiter := { wg := 0, errch := { cap := 0, len := 0, closed := true } },
        threads := [Thread.caller .entry [], Thread.worker .exited none,
          Thread.worker .exited (some sampleTransportErr)],
        draining := true, received := [sampleTransportErr], panicked := false } : Sys).received.Perm
      ([none, some sampleTransportErr].filterMap id)) :=
  ((batch_wait_collects_errors 2 (by decide) [none, some sampleTransportErr]
    [0, 0, 0, 0, 0, 0, 0, 0, 2, 1, 2, 1, 2, 1, 2, 1, 2, 0, 0]
    { p := freshManager 2,
      waiter := { wg := 0, errch := { cap := 0, len := 0, closed := true } },
      threads := [Thread.caller .entry [], Thread.worker .exited none,
        Thread.worker .exited (some sampleTransportErr)],
      draining := true, received := [sampleTransportErr], panicked := false }
    (by decide)).2.2.1 rfl).2.1

/-- C20: in every interleaving of the batch usage nothing panics, so no task
sends on a closed error channel; the waiter's counter is the number of
submitted tasks whose goroutine has not yet run its `waiter.wg.Done()`, which
comes after the body and the delivery of its error; the error channel is
closed only with that counter at zero and no such task left; and a task about
to send its error finds the channel open. -/
theorem batch_errch_closed_only_when_idle (W : Int) (hW : 1 ≤ W) (tasks : List Task)
    (sched : List Nat) (s : Sys) (hrun : runSchedule (batch W tasks) sched = some s) :
    s.panicked = false ∧
      s.waiter.wg = s.threads.countP Thread.tracked ∧
      (s.waiter.errch.closed = true →
        s.waiter.wg = 0 ∧ ∀ t ∈ s.threads, t.tracked = false) ∧
      (∀ (t : Thread) (e : GoError) (fn : Task), t ∈ s.threads →
        t = Thread.worker (.errSend e) fn → s.waiter.errch.closed = false ∧ fn = some e) := by
  have hinv := runSchedule_batchInv tasks sched _ s (batch_init W hW tasks) hrun
  obtain ⟨hb, hpan, hsem, hdr, pc, calls, ws, rem, hth, hws, htasks, hrecv, hcase⟩ := hinv
  obtain ⟨b1, b2, b3, b4⟩ := hb
  have hzero : s.waiter.wg = 0 → ∀ t ∈ s.threads, t.tracked = false := by
    intro hwg t ht
    have hz : s.threads.countP Thread.tracked = 0 := by omega
    have := (List.countP_eq_zero.mp hz) t ht
    simpa using this
  refine ⟨hpan, b3, ?_, ?_⟩
  · intro hclosed
    rcases hcase with ⟨_, hopen, _, _⟩ | ⟨_, _, _, hwg, _⟩
    · rw [hopen] at hclosed
      cases hclosed
    · exact ⟨hwg, hzero hwg⟩
  · intro t e fn ht hte
    subst hte
    have hfn : fn = some e := by
      rw [hth] at ht
      rcases List.mem_cons.mp ht with h | h
      · cases h
      · obtain ⟨wpc, fn2, heq, herr⟩ := hws _ h
        cases heq
        exact herr e rfl
    refine ⟨?_, hfn⟩
    rcases hcase with ⟨_, hopen, _, _⟩ | ⟨_, _, _, hwg, _⟩
    · exact hopen
    · have := hzero hwg _ ht
      cases this

/-- C20, instance: capacity 2, one failing task; the state in which its
goroutine is about to send has the channel open. -/
theorem batch_errch_closed_only_when_idle_witness :
    ({ p := { wg := 1, semaphore := { cap := 2, len := 1, closed := false } },
        waiter := { wg := 1, errch := { cap := 0, len := 0, closed := false } },
        threads := [Thread.caller .entry [Call.Wait],
          Thread.worker (.errSend sampleTransportErr) (some sampleTransportErr)],
        draining := true, received := [], panicked := false } : Sys).waiter.errch.closed = false ∧
      some sampleTransportErr = some sampleTransportErr :=
  (batch_errch_closed_only_when_idle 2 (by decide) [some sampleTransportErr]
    [0, 0, 0, 0, 1]
    { p := { wg := 1, semaphore := { cap := 2, len := 1, closed := false } },
      waiter := { wg := 1, errch := { cap := 0, len := 0, closed := false } },
      threads := [Thread.caller .entry [Call.Wait],
        Thread.worker (.errSend sampleTransportErr) (some sampleTransportErr)],
      draining := true, received := [], panicked := false }
    (by decide)).2.2.2 _ sampleTransportErr (some sampleTransportErr)
    (by simp) rfl

/-! ## `Run` on a closed manager -/

/-- A closed semaphore stays closed. -/
theorem step_sem_closed (s s1 : Sys) (k : Nat) (h : step s k = some s1)
    (hc : s.p.semaphore.closed = true) : s1.p.semaphore.closed = true := by
  have hp := step_not_panicked s s1 k h
  rcases hget : s.threads[k]? with _ | t
  · simp [step, hp, hget] at h
  · rcases t with ⟨pc, calls⟩ | ⟨pc, fn⟩
    · rcases calls with _ | ⟨c, rest⟩
      · simp [step, hp, hget] at h
      · cases c <;> cases pc <;> simp [step, hp, hget] at h <;> (try split_ifs at h) <;>
          (try simp at h) <;> (first | (have h' := h.2; subst h') | subst h) <;>
          exact hc
    · cases pc <;> (try cases fn) <;> simp [step, hp, hget] at h <;> (try split_ifs at h) <;>
          (try simp at h) <;> subst h <;> exact hc

/-- A step rewrites at most the stepping goroutine and may append new ones. -/
theorem step_threads_shape (s s1 : Sys) (k : Nat) (h : step s k = some s1) :
    s1.threads = s.threads ∨ ∃ t1 extra, s1.threads = s.threads.set k t1 ++ extra := by
  have hp := step_not_panicked s s1 k h
  rcases hget : s.threads[k]? with _ | t
  · simp [step, hp, hget] at h
  · rcases t with ⟨pc, calls⟩ | ⟨pc, fn⟩
    · rcases calls with _ | ⟨c, rest⟩
      · simp [step, hp, hget] at h
      · cases c <;> cases pc <;> simp [step, hp, hget] at h <;> (try split_ifs at h) <;>
          (try simp at h) <;> (first | (have h' := h.2; subst h') | subst h) <;>
          first
            | exact Or.inl rfl
            | exact Or.inr ⟨_, [], (List.append_nil _).symm⟩
            | exact Or.inr ⟨_, _, rfl⟩
    · cases pc <;> (try cases fn) <;> simp [step, hp, hget] at h <;> (try split_ifs at h) <;>
          (try simp at h) <;> subst h <;>
          first
            | exact Or.inl rfl
            | exact Or.inr ⟨_, [], (List.append_nil _).symm⟩

/-- A step of one goroutine leaves every other goroutine as it is. -/
theorem step_thread_other (s s1 : Sys) (k i : Nat) (t : Thread) (h : step s k = some s1)
    (hne : k ≠ i) (hget : s.threads[i]? = some t) : s1.threads[i]? = some t := by
  have hlt : i < s.threads.length := by
    by_contra hge
    rw [List.getElem?_eq_none (by omega)] at hget
    cases hget
  rcases step_threads_shape s s1 k h with heq | ⟨t1, extra, heq⟩
  · rw [heq]
    exact hget
  · rw [heq, List.getElem?_append_left (by simpa using hlt), List.getElem?_set_ne hne]
    exact hget

/-- C15: once the semaphore is closed, which is what `Close` does last, a
client entering `Run` never gets past `acquire` in any interleaving: its
goroutine stays at the entry of `Run` or at the send on the semaphore, so the
`go` statement is not reached and the task body is not started; it is never
blocked, its first step registers the task with the waiter and its next step
panics on the closed semaphore. -/
theorem Run_after_Close_panics (s : Sys) (i : Nat) (fn : Task) (rest : List Call)
    (hclosed : s.p.semaphore.closed = true)
    (hget : s.threads[i]? = some (Thread.caller .entry (Call.Run fn :: rest)))
    (sched : List Nat) (s1 : Sys) (hrun : runSchedule s sched = some s1) :
    s1.p.semaphore.closed = true ∧
      (s1.threads[i]? = some (Thread.caller .entry (Call.Run fn :: rest)) ∨
        s1.threads[i]? = some (Thread.caller .acquireSend (Call.Run fn :: rest))) ∧
      (s1.panicked = false →
        (s1.threads[i]? = some (Thread.caller .entry (Call.Run fn :: rest)) →
          ∃ s2, step s1 i = some s2 ∧ s2.panicked = false ∧
            s2.threads[i]? = some (Thread.caller .acquireSend (Call.Run fn :: rest)) ∧
            step s2 i = some { s2 with panicked := true }) ∧
        (s1.threads[i]? = some (Thread.caller .acquireSend (Call.Run fn :: rest)) →
          step s1 i = some { s1 with panicked := true })) := by
  have hsend : ∀ s0 : Sys, s0.p.semaphore.closed = true → s0.panicked = false →
      s0.threads[i]? = some (Thread.caller .acquireSend (Call.Run fn :: rest)) →
      step s0 i = some { s0 with panicked := true } := by
    intro s0 hc hp hg
    simp [step, hp, hg, hc]
  have hentry : ∀ s0 : Sys, s0.panicked = false →
      s0.threads[i]? = some (Thread.caller .entry (Call.Run fn :: rest)) →
      step s0 i = some { s0 with
        waiter := { s0.waiter with wg := s0.waiter.wg + 1 }
        threads := s0.threads.set i (Thread.caller .acquireSend (Call.Run fn :: rest)) } := by
    intro s0 hp hg
    simp [step, hp, hg]
  have hset : ∀ s0 : Sys, s0.threads[i]? = some (Thread.caller .entry (Call.Run fn :: rest)) →
      (s0.threads.set i (Thread.caller .acquireSend (Call.Run fn :: rest)))[i]? =
        some (Thread.caller .acquireSend (Call.Run fn :: rest)) := by
    intro s0 hg
    have hlt : i < s0.threads.length := by
      by_contra hge
      rw [List.getElem?_eq_none (by omega)] at hg
      cases hg
    simp [List.getElem?_set_self hlt]
  have hinv : ∀ (sched : List Nat) (s0 s1 : Sys), s0.p.semaphore.closed = true →
      (s0.threads[i]? = some (Thread.caller .entry (Call.Run fn :: rest)) ∨
        s0.threads[i]? = some (Thread.caller .acquireSend (Call.Run fn :: rest))) →
      runSchedule s0 sched = some s1 →
      s1.p.semaphore.closed = true ∧
        (s1.threads[i]? = some (Thread.caller .entry (Call.Run fn :: rest)) ∨
          s1.threads[i]? = some (Thread.caller .acquireSend (Call.Run fn :: rest))) := by
    intro sched
    induction sched with
    | nil =>
      intro s0 s1 hc hg h
      simp only [runSchedule, Option.some.injEq] at h
      subst h
      exact ⟨hc, hg⟩
    | cons k more ih =>
      intro s0 s1 hc hg h
      simp only [runSchedule] at h
      split at h
      · cases h
      · rename_i s2 hstep
        have hp := step_not_panicked s0 s2 k hstep
        refine ih s2 s1 (step_sem_closed s0 s2 k hstep hc) ?_ h
        by_cases hk : k = i
        · subst hk
          rcases hg with hg | hg
          · rw [hentry s0 hp hg] at hstep
            cases hstep
            exact Or.inr (hset s0 hg)
          · rw [hsend s0 hc hp hg] at hstep
            cases hstep
            exact Or.inr hg
        · rcases hg with hg | hg
          · exact Or.inl (step_thread_other s0 s2 k i _ hstep hk hg)
          · exact Or.inr (step_thread_other s0 s2 k i _ hstep hk hg)
  obtain ⟨hc1, hg1⟩ := hinv sched s s1 hclosed (Or.inl hget) hrun
  refine ⟨hc1, hg1, fun hp1 => ⟨fun hg => ?_, fun hg => hsend s1 hc1 hp1 hg⟩⟩
  refine ⟨_, hentry s1 hp1 hg, hp1, hset s1 hg, ?_⟩
  exact hsend _ hc1 hp1 (hset s1 hg)

/-- C15, instance: one client calls `Close` and then `Run`; after `Close` has
returned the first step of `Run` registers the task and the second
panics. -/
theorem Run_after_Close_panics_witness :
    runSchedule (start (freshManager 2) [[Call.Close, Call.Run none]] true) [0, 0] =
        some { p := { wg := 0, semaphore := { cap := 2, len := 0, closed := true } },
               waiter := NewWaiter,
               threads := [Thread.caller .entry [Call.Run none]],
               draining := true, received := [], panicked := false } ∧
      runSchedule { p := { wg := 0, semaphore := { cap := 2, len := 0, closed := true } },
                    waiter := NewWaiter,
                    threads := [Thread.caller .entry [Call.Run none]],
                    draining := true, received := [], panicked := false } [0, 0] =
        some { p := { wg := 0, semaphore := { cap := 2, len := 0, closed := true } },
               waiter := { wg := 1, errch := { cap := 0, len := 0, closed := false } },
               threads := [Thread.caller .acquireSend [Call.Run none]],
               draining := true, received := [], panicked := true } ∧
      step { p := { wg := 0, semaphore := { cap := 2, len := 0, closed := true } },
             waiter := { wg := 1, errch := { cap := 0, len := 0, closed := false } },
             threads := [Thread.caller .acquireSend [Call.Run none]],
             draining := true, received := [], panicked := false } 0 =
        some { p := { wg := 0, semaphore := { cap := 2, len := 0, closed := true } },
               waiter := { wg := 1, errch := { cap := 0, len := 0, closed := false } },
               threads := [Thread.caller .acquireSend [Call.Run none]],
               draining := true, received := [], panicked := true } :=
  ⟨by decide, by decide,
    ((Run_after_Close_panics
      { p := { wg := 0, semaphore := { cap := 2, len := 0, closed := true } },
        waiter := NewWaiter,
        threads := [Thread.caller .entry [Call.Run none]],
        draining := true, received := [], panicked := false } 0 none [] rfl rfl [0]
      { p := { wg := 0, semaphore := { cap := 2, len := 0, closed := true } },
        waiter := { wg := 1, errch := { cap := 0, len := 0, closed := false } },
        threads := [Thread.caller .acquireSend [Call.Run none]],
        draining := true, received := [], panicked := false }
      (by decide)).2.2 rfl).2 rfl⟩

end S5cmd
